import Mathlib

/-!
Verification of the polyscalp trading bot core against its specification.

The Python modules `bot/risk.py`, `bot/strategy.py`, `bot/scanner.py`,
`bot/execution.py` and `bot/scalp_mode.py` are shallowly embedded below.
Python floats are modelled as exact rationals (`ℚ`), Python's `round`
(banker's rounding, ties to even) is modelled exactly, dictionaries keyed
by opaque identifier strings are modelled as association lists or total
maps with default `0`, and opaque ids (uuid hex strings, token-id strings)
are modelled as natural numbers since only equality on them is used.
Wall-clock times are rationals threaded explicitly through each operation.
-/

namespace PolyScalp

/-! ### Python numeric helpers -/

/-- Python's built-in `round(x)` on a rational: nearest integer, ties to even. -/
def roundHalfEven (q : ℚ) : ℤ :=
  let n : ℤ := ⌊q⌋
  let r : ℚ := q - n
  if r < 1/2 then n
  else if 1/2 < r then n + 1
  else if n % 2 = 0 then n else n + 1

/-- Python's `round(v, 6)`: round to six decimal places, ties to even. -/
def pyRound6 (q : ℚ) : ℚ :=
  (roundHalfEven (q * 1000000) : ℚ) / 1000000

/-! ### bot/risk.py -/

/-- `ScalpRisk` dataclass from bot/risk.py (defaults as in the source). -/
structure ScalpRisk where
  tp_pct : ℚ := 1/10
  sl_pct : ℚ := 1/10
  bet_frac_start : ℚ := 1/2
  bet_frac_step : ℚ := 1/100
  bet_frac_min : ℚ := 1/100
  bet_frac_max : ℚ := 1/2
  stake_cap_usd : ℚ := 1000
  tick : ℚ := 1/100
deriving DecidableEq

/-- `round_to_tick` from bot/risk.py: round to the nearest tick multiple,
clamp into `[tick, 1 - tick]`, then normalize with `round(v, 6)`;
returns `x` unchanged when `tick ≤ 0`. -/
def round_to_tick (x : ℚ) (tick : ℚ) : ℚ :=
  if tick ≤ 0 then x
  else pyRound6 (max tick (min (1 - tick) ((roundHalfEven (x / tick) : ℚ) * tick)))

/-- `bracket_prices` from bot/risk.py. -/
def bracket_prices (fill_price : ℚ) (risk : ScalpRisk) : ℚ × ℚ :=
  let tp := fill_price * (1 + risk.tp_pct)
  let sl := fill_price * (1 - risk.sl_pct)
  (round_to_tick tp risk.tick, round_to_tick sl risk.tick)

/-- `DynamicSizer` from bot/risk.py: a bet fraction stepped after each
closed trade. -/
structure DynamicSizer where
  risk : ScalpRisk
  bet_frac : ℚ
deriving DecidableEq

/-- `DynamicSizer.__init__`. -/
def DynamicSizer.init (risk : ScalpRisk) : DynamicSizer :=
  ⟨risk, risk.bet_frac_start⟩

/-- `DynamicSizer.stake_usd`. -/
def DynamicSizer.stake_usd (s : DynamicSizer) (balance_usd : ℚ) : ℚ :=
  min (balance_usd * s.bet_frac) s.risk.stake_cap_usd

/-- `DynamicSizer.on_trade_closed`: win decreases the fraction (floored at
`bet_frac_min`), loss increases it (capped at `bet_frac_max`). -/
def DynamicSizer.on_trade_closed (s : DynamicSizer) (won : Bool) : DynamicSizer :=
  if won then
    { s with bet_frac := max s.risk.bet_frac_min (s.bet_frac - s.risk.bet_frac_step) }
  else
    { s with bet_frac := min s.risk.bet_frac_max (s.bet_frac + s.risk.bet_frac_step) }

/-- Run a whole win/loss history through the sizer. -/
def DynamicSizer.runClosed (s : DynamicSizer) (ws : List Bool) : DynamicSizer :=
  ws.foldl DynamicSizer.on_trade_closed s

/-! ### bot/scanner.py

`gamma.event_by_slug` is an external HTTP call; it is modelled as a
function `fetch : String → Option EventObj` where `none` stands for any
raised exception (network failure, malformed JSON).  The ISO-timestamp
field `endDate` is modelled in already-parsed form as `Option ℤ` (unix
seconds); `clobTokenIds` in already-JSON-decoded form as
`Option (List String)` where `none` stands for an unparseable /
unexpected-format value. -/

/-- One entry of the `markets` list of a Gamma event response. -/
structure EventMarket where
  clobTokenIds : Option (List String)
  endDate : Option ℤ
deriving DecidableEq

/-- A Gamma event response, as consumed by `_extract_tokens_and_end`. -/
structure EventObj where
  markets : List EventMarket
  endDate : Option ℤ
deriving DecidableEq

/-- `_extract_tokens_and_end` from bot/scanner.py.  `none` stands for a
raised `RuntimeError`: no markets, missing/unparseable `clobTokenIds`,
fewer than two token ids, or missing `endDate`. -/
def extract_tokens_and_end (e : EventObj) : Option (String × String × ℤ) :=
  match e.markets with
  | [] => none
  | m0 :: _ =>
    match m0.clobTokenIds with
    | none => none
    | some tokenIds =>
      match tokenIds with
      | t0 :: t1 :: _ =>
        match m0.endDate.orElse (fun _ => e.endDate) with
        | none => none
        | some endTs => some (t0, t1, endTs)
      | _ => none

/-- `GammaScanParams` from bot/scanner.py.  The source field `slug_prefix`
is called `slugHead` here. -/
structure GammaScanParams where
  slugHead : String
  interval_sec : ℤ := 900
  lookahead_intervals : ℕ := 12
  fallback_search_query : String := "btc updown 15m"
  fallback_limit : ℕ := 50

/-- One accepted scan candidate: the tuple
`(tte, slug, yes, no, end_ts)` built by `scan_btc_15m_by_slug`. -/
structure Cand where
  tte : ℤ
  slug : String
  yes : String
  no : String
  end_ts : ℤ
deriving DecidableEq

/-- Stable insertion (earlier elements stay in front of equal-`tte` later
ones), used to model Python's stable `list.sort(key=tte)`. -/
def insertByTte (c : Cand) : List Cand → List Cand
  | [] => [c]
  | d :: ds => if c.tte ≤ d.tte then c :: d :: ds else d :: insertByTte c ds

/-- Stable sort by `tte`, smallest first. -/
def sortByTte : List Cand → List Cand
  | [] => []
  | c :: cs => insertByTte c (sortByTte cs)

/-- `_pick_best` from bot/scanner.py: sort by `tte` ascending (stable) and
return the first candidate, or `none` for an empty list. -/
def pick_best (candidates : List Cand) : Option Cand :=
  (sortByTte candidates).head?

/-- The per-slug body of both scan loops in `scan_btc_15m_by_slug`:
fetch the event, extract token ids and end timestamp, compute
`tte = end_ts - now`, and reject (`none`) on any exception, on
`tte ≤ min_tte_sec`, or on `tte > max_tte_sec`. -/
def processSlug (fetch : String → Option EventObj) (now min_tte_sec max_tte_sec : ℤ)
    (slug : String) : Option Cand :=
  match fetch slug with
  | none => none
  | some event =>
    match extract_tokens_and_end event with
    | none => none
    | some (yes_asset, no_asset, end_ts) =>
      let tte := end_ts - now
      if tte ≤ min_tte_sec then none
      else if max_tte_sec < tte then none
      else some ⟨tte, slug, yes_asset, no_asset, end_ts⟩

/-- The deterministic slug for lookahead index `i`:
`params.slug_prefix + str(start_ts0 + i * interval_sec)`. -/
def slugFor (params : GammaScanParams) (start_ts0 : ℤ) (i : ℕ) : String :=
  params.slugHead ++ toString (start_ts0 + (i : ℤ) * params.interval_sec)

/-- `scan_btc_15m_by_slug` from bot/scanner.py.  `searchResults` models
the `events` list returned by `gamma.search` in the fallback pass (each
entry's optional `slug` field); `none` as the overall result models the
final `RuntimeError` when both passes find nothing. -/
def scan_btc_15m_by_slug (fetch : String → Option EventObj)
    (searchResults : List (Option String)) (params : GammaScanParams)
    (now min_tte_sec max_tte_sec : ℤ) : Option Cand :=
  let start_ts0 := (Int.fdiv now params.interval_sec) * params.interval_sec
  let slugs := (List.range params.lookahead_intervals).map (slugFor params start_ts0)
  let ok := slugs.filterMap (processSlug fetch now min_tte_sec max_tte_sec)
  match pick_best ok with
  | some best => some best
  | none =>
    let slugs2 := searchResults.filterMap id
    let ok2 := slugs2.filterMap (processSlug fetch now min_tte_sec max_tte_sec)
    pick_best ok2

/-! ### bot/execution.py

`PaperExecution` keeps Python dicts `inv` and `avg_cost` keyed by asset
id; they are modelled as association lists (`List (AssetId × ℚ)`), which
preserves the dict's insertion order (needed by `_equity_usd`, which
iterates `inv.items()`).  Reads use the dict's `.get(key, 0.0)` default.
The shared `price_cache` dict is modelled as a total map with default
`(None, None)`.  `uuid` order ids are modelled by a fresh-counter. -/

/-- Asset ids are opaque token-id strings in the source; only equality is
used on them, so they are modelled as naturals. -/
abbrev AssetId := ℕ

/-- Read from an association-list dict with Python's `.get(k, 0.0)`. -/
def getA (l : List (AssetId × ℚ)) (k : AssetId) : ℚ :=
  ((l.find? (fun p => p.1 = k)).map (fun p => p.2)).getD 0

/-- Write `d[k] = v` on an association-list dict: update in place when the
key is present, append otherwise (Python dict insertion order). -/
def updA (l : List (AssetId × ℚ)) (k : AssetId) (v : ℚ) : List (AssetId × ℚ) :=
  if l.any (fun p => p.1 = k) then
    l.map (fun p => if p.1 = k then (k, v) else p)
  else l ++ [(k, v)]

/-- A top-of-book entry `(bid, ask)`; `none` is an absent side. -/
abbrev BookTop := Option ℚ × Option ℚ

/-- The shared `price_cache` dict (`asset_id -> (bid, ask)`), with
`.get(asset, (None, None))` as the read. -/
abbrev PriceCache := AssetId → BookTop

/-- Pointwise `price_cache[asset] = (bid, ask)`. -/
def updBook (b : PriceCache) (k : AssetId) (v : BookTop) : PriceCache :=
  fun k' => if k' = k then v else b k'

/-- `PaperExecCfg` from bot/execution.py (defaults as in the source). -/
structure PaperExecCfg where
  start_cash_usd : ℚ := 500
  fill_delay_sec : ℚ := 1
  tick : ℚ := 1/100
deriving DecidableEq

inductive Side where
  | buy
  | sell
deriving DecidableEq

inductive OStatus where
  | opn
  | filled
  | canceled
deriving DecidableEq

/-- `Order` dataclass from bot/execution.py. -/
structure Order where
  order_id : ℕ
  asset_id : AssetId
  side : Side
  price : ℚ
  size : ℚ
  post_only : Bool
  status : OStatus
  created_ts : ℚ
  filled_ts : Option ℚ := none
  avg_fill_price : Option ℚ := none
deriving DecidableEq

/-- The scalar ledger fields of `PaperExecution`
(cash / inventory / cost basis / realized pnl / win-loss counters). -/
structure Ledger where
  cash : ℚ
  inv : List (AssetId × ℚ)
  avg_cost : List (AssetId × ℚ)
  realized_pnl : ℚ
  wins : ℕ
  losses : ℕ

/-- Full `PaperExecution` state: the ledger, the order book keyed in
insertion order, the shared price cache, and the fresh order-id counter. -/
structure PaperState extends Ledger where
  book : PriceCache
  orders : List Order
  next_id : ℕ

/-- `PaperExecution.__init__` with no prior state file. -/
def initPaper (cfg : PaperExecCfg) : PaperState :=
  { cash := cfg.start_cash_usd, inv := [], avg_cost := [],
    realized_pnl := 0, wins := 0, losses := 0,
    book := fun _ => (none, none), orders := [], next_id := 0 }

/-- `_mark_filled`. -/
def markFilled (o : Order) (now fill_price : ℚ) : Order :=
  { o with status := .filled, filled_ts := some now, avg_fill_price := some fill_price }

/-- The body of the `for o in list(self.orders.values())` loop of
`_maybe_fill_all`: possibly fill one order against the current book,
threading the ledger. -/
def sweepStep (cfg : PaperExecCfg) (book : PriceCache) (now : ℚ)
    (led : Ledger) (o : Order) : Ledger × Order :=
  if o.status ≠ .opn then (led, o)
  else if now - o.created_ts < cfg.fill_delay_sec then (led, o)
  else
    match book o.asset_id with
    | (some bid, some _ask) =>
      match o.side with
      | .buy =>
        -- cost := price * size; fill when it touches the bid and fits in cash
        if |o.price - bid| ≤ cfg.tick / 2 then
          if o.price * o.size ≤ led.cash + 1/1000000000 then
            ({ led with
                cash := led.cash - o.price * o.size,
                inv := updA led.inv o.asset_id (getA led.inv o.asset_id + o.size),
                avg_cost := updA led.avg_cost o.asset_id
                  ((getA led.inv o.asset_id * getA led.avg_cost o.asset_id
                      + o.size * o.price) / (getA led.inv o.asset_id + o.size)) },
             markFilled o now o.price)
          else (led, o)
        else (led, o)
      | .sell =>
        -- sell_sz := min held size; rpnl := sell_sz * (price - avg_cost)
        if o.price - 1/1000000000 ≤ bid then
          if 0 < min (getA led.inv o.asset_id) o.size then
            ({ led with
                cash := led.cash
                  + o.price * min (getA led.inv o.asset_id) o.size,
                inv := updA led.inv o.asset_id
                  (if getA led.inv o.asset_id
                      - min (getA led.inv o.asset_id) o.size ≤ 1/1000000000000
                    then 0
                    else getA led.inv o.asset_id
                      - min (getA led.inv o.asset_id) o.size),
                avg_cost := if getA led.inv o.asset_id
                      - min (getA led.inv o.asset_id) o.size ≤ 1/1000000000000
                  then updA led.avg_cost o.asset_id 0
                  else led.avg_cost,
                realized_pnl := led.realized_pnl
                  + min (getA led.inv o.asset_id) o.size
                    * (o.price - getA led.avg_cost o.asset_id),
                wins := if 1/1000000000 < min (getA led.inv o.asset_id) o.size
                      * (o.price - getA led.avg_cost o.asset_id)
                  then led.wins + 1 else led.wins,
                losses := if min (getA led.inv o.asset_id) o.size
                      * (o.price - getA led.avg_cost o.asset_id) < -(1/1000000000)
                  then led.losses + 1 else led.losses },
             markFilled o now o.price)
          else (led, o)
        else (led, o)
    | _ => (led, o)

/-- The whole loop of `_maybe_fill_all`, threading the ledger left to
right through the orders in insertion order. -/
def sweepOrders (cfg : PaperExecCfg) (book : PriceCache) (now : ℚ) :
    Ledger → List Order → Ledger × List Order
  | led, [] => (led, [])
  | led, o :: os =>
    let p := sweepStep cfg book now led o
    let q := sweepOrders cfg book now p.1 os
    (q.1, p.2 :: q.2)

/-- `_maybe_fill_all`. -/
def maybeFillAll (cfg : PaperExecCfg) (now : ℚ) (s : PaperState) : PaperState :=
  let p := sweepOrders cfg s.book now s.toLedger s.orders
  { s with toLedger := p.1, orders := p.2 }

/-- `_place`: create an `open` order, returning the fresh order id. -/
def place (s : PaperState) (now : ℚ) (asset_id : AssetId) (side : Side)
    (price size : ℚ) (post_only : Bool) : PaperState × ℕ :=
  let o : Order :=
    { order_id := s.next_id, asset_id := asset_id, side := side, price := price,
      size := size, post_only := post_only, status := .opn, created_ts := now }
  ({ s with orders := s.orders ++ [o], next_id := s.next_id + 1 }, s.next_id)

/-- `cancel_order`: mark an `open` order `canceled`; no-op when the id is
unknown or the order is already filled/canceled. -/
def cancelOrder (s : PaperState) (oid : ℕ) : PaperState :=
  { s with orders := s.orders.map (fun o =>
      if o.order_id = oid ∧ o.status = .opn then { o with status := .canceled } else o) }

/-- `get_order`: run a fill sweep, then look the order up (a `none`
result models the `{"status": "unknown"}` marker). -/
def getOrder (cfg : PaperExecCfg) (now : ℚ) (s : PaperState) (oid : ℕ) :
    PaperState × Option Order :=
  let s' := maybeFillAll cfg now s
  (s', s'.orders.find? (fun o => o.order_id = oid))

/-- `_equity_usd`: cash plus mark-to-mid over the inventory dict,
skipping assets with an absent bid or ask. -/
def equity (s : PaperState) : ℚ :=
  s.inv.foldl (fun acc p =>
    match s.book p.1 with
    | (some bid, some ask) => acc + p.2 * ((bid + ask) / 2)
    | _ => acc) s.cash

/-- `get_balance_usd`: sweep, then report equity. -/
def getBalance (cfg : PaperExecCfg) (now : ℚ) (s : PaperState) : PaperState × ℚ :=
  let s' := maybeFillAll cfg now s
  (s', equity s')

/-! #### Operation sequences on the paper ledger

A `PaperOp` is one public `PaperExecution` call, tagged with the wall
clock at which it runs; `setBook` models the external feed writing the
shared `price_cache`. -/

inductive PaperOp where
  | setBook (asset : AssetId) (bid ask : Option ℚ)
  | placeBuy (now : ℚ) (asset : AssetId) (price size : ℚ)
  | placeSellPO (now : ℚ) (asset : AssetId) (price size : ℚ)
  | placeSell (now : ℚ) (asset : AssetId) (price size : ℚ)
  | cancel (oid : ℕ)
  | getOrd (now : ℚ) (oid : ℕ)
  | balance (now : ℚ)
  | snapshot (now : ℚ)

/-- Apply one public operation to the paper state (`get_order`,
`get_balance_usd` and `snapshot` each run the lazy fill sweep first;
placements and cancels do not sweep). -/
def applyOp (cfg : PaperExecCfg) (s : PaperState) : PaperOp → PaperState
  | .setBook a bid ask => { s with book := updBook s.book a (bid, ask) }
  | .placeBuy t a p z => (place s t a .buy p z true).1
  | .placeSellPO t a p z => (place s t a .sell p z true).1
  | .placeSell t a p z => (place s t a .sell p z false).1
  | .cancel oid => cancelOrder s oid
  | .getOrd t _oid => maybeFillAll cfg t s
  | .balance t => maybeFillAll cfg t s
  | .snapshot t => maybeFillAll cfg t s

/-- Run a sequence of operations from a given state. -/
def runOps (cfg : PaperExecCfg) (s : PaperState) (ops : List PaperOp) : PaperState :=
  ops.foldl (applyOp cfg) s

/-- An operation places only nonnegative-size orders (placements by the
engine always satisfy this: entry quantities are floored at `0.0001`
and exits reuse the entry quantity). -/
def PaperOp.sizeOk : PaperOp → Prop
  | .placeBuy _ _ _ size => 0 ≤ size
  | .placeSellPO _ _ _ size => 0 ≤ size
  | .placeSell _ _ _ size => 0 ≤ size
  | _ => True

/-- The concrete C2 scenario fetcher: three probe slugs answering with
end timestamps `1050`, `1700`, `2100`; at `now = 1000` their `tte`
values are `{50, 700, 1100}`. -/
def fetchC2 : String → Option EventObj := fun s =>
  if s = "btc-updown-15m-900" then some ⟨[⟨some ["y1", "n1"], some 1050⟩], none⟩
  else if s = "btc-updown-15m-1800" then some ⟨[⟨some ["y2", "n2"], some 1700⟩], none⟩
  else if s = "btc-updown-15m-2700" then some ⟨[⟨some ["y3", "n3"], some 2100⟩], none⟩
  else none

/-- Scan parameters probing exactly the three C2 scenario candidates. -/
def paramsC2 : GammaScanParams :=
  { slugHead := "btc-updown-15m-", lookahead_intervals := 3 }

/-! ### bot/strategy.py -/

/-- `EntryRules` dataclass (defaults as in the source). -/
structure EntryRules where
  price_min : ℚ := 81/100
  price_max : ℚ := 85/100
  max_spread : ℚ := 1/100
  tte_max_seconds : ℤ := 7 * 60
  entry_ttl_seconds : ℚ := 20
  tick : ℚ := 1/100
deriving DecidableEq

/-- `in_band`: inclusive range test. -/
def in_band (x lo hi : ℚ) : Bool :=
  decide (lo ≤ x ∧ x ≤ hi)

/-- `spread_ok` (both sides are known to be present at the call sites
inside `step`, so the `None` guard of the source is dropped here). -/
def spread_ok (bid ask max_spread : ℚ) : Bool :=
  if ask < bid then false else decide (ask - bid ≤ max_spread)

inductive PSide where
  | yes
  | no
deriving DecidableEq

/-- `pick_entry_side_price_only` from bot/strategy.py. -/
def pick_entry_side_price_only (tte_seconds : ℤ) (yes_bid yes_ask no_bid no_ask : ℚ)
    (rules : EntryRules) : Option (PSide × ℚ) :=
  if rules.tte_max_seconds < tte_seconds then none
  else
    let yes_ok := spread_ok yes_bid yes_ask rules.max_spread
      && in_band yes_bid rules.price_min rules.price_max
    let no_ok := spread_ok no_bid no_ask rules.max_spread
      && in_band no_bid rules.price_min rules.price_max
    if yes_ok && no_ok then
      let mid := (rules.price_min + rules.price_max) / 2
      if |yes_bid - mid| ≤ |no_bid - mid| then some (.yes, yes_bid)
      else some (.no, no_bid)
    else if yes_ok then some (.yes, yes_bid)
    else if no_ok then some (.no, no_bid)
    else none

/-! ### bot/scalp_mode.py

`ScalpMode` is modelled against the concrete `PaperExecution` it is
wired to in bot/runtime.py.  Awaited calls resolve synchronously against
the paper state; each `asyncio.sleep(0.2)` of the stop-loss polling loop
advances the wall clock by `1/5` second.  The book feed is quiescent
during one `step` (the single-writer feed task is a separate task). -/

/-- `MarketSpec`. -/
structure MarketSpec where
  yes_asset : AssetId
  no_asset : AssetId
  end_ts : ℤ
deriving DecidableEq

/-- `OpenPosition` dataclass. -/
structure OpenPosition where
  side : PSide
  asset_id : AssetId
  qty : ℚ
  entry_order_id : ℕ
  entry_post_price : ℚ
  entry_ts : ℚ
  fill_price : Option ℚ := none
  tp_price : Option ℚ := none
  sl_price : Option ℚ := none
  tp_order_id : Option ℕ := none
deriving DecidableEq

/-- The engine-local fields of a `ScalpMode` instance (its own
tick-rounded book cache is separate from the ledger's `price_cache`). -/
structure ScalpState where
  market : MarketSpec
  rules : EntryRules
  risk : ScalpRisk
  sizer : DynamicSizer
  book : PriceCache
  pos : Option OpenPosition

/-- The combined system the runtime drives: one engine plus the paper
execution it trades against. -/
structure SysState where
  scalp : ScalpState
  paper : PaperState

/-- `on_book_top`: store tick-rounded prices in the engine book. -/
def onBookTop (s : ScalpState) (asset_id : AssetId) (bid ask : Option ℚ) : ScalpState :=
  let bid' := bid.map (fun b => round_to_tick b s.risk.tick)
  let ask' := ask.map (fun a => round_to_tick a s.risk.tick)
  { s with book := updBook s.book asset_id (bid', ask') }

/-- `max(0, int(end_ts - time.time()))` — `_tte_seconds`. -/
def tteSeconds (s : ScalpState) (now : ℚ) : ℤ :=
  max 0 ⌊(s.market.end_ts : ℚ) - now⌋

/-- Python's `a or b or c` fallback chain over the numeric fields used to
recover a fill price (`0.0` and `None` are both falsy). -/
def orFalsy (a : Option ℚ) (b : ℚ) : ℚ :=
  match a with
  | some x => if x = 0 then b else x
  | none => b

/-- The bounded fill-wait of the stop-loss branch: up to `fuel` rounds of
`get_order` (each a lazy sweep) separated by `asyncio.sleep(0.2)`.
Returns the paper state, the wall clock after the loop, and whether the
order was seen `filled`. -/
def pollFill (cfg : PaperExecCfg) (oid : ℕ) :
    PaperState → ℚ → ℕ → PaperState × ℚ × Bool
  | s, t, 0 => (s, t, false)
  | s, t, Nat.succ n =>
    let p := getOrder cfg t s oid
    if (p.2.map (fun o => o.status)) = some .filled then (p.1, t, true)
    else pollFill cfg oid p.1 (t + 1/5) n

/-- `if pos.tp_order_id: cancel_order(pos.tp_order_id)` — cancel the
resting take-profit before the stop-loss exit (avoids a double sell). -/
def slCancelTp (pos : OpenPosition) (paper : PaperState) : PaperState :=
  match pos.tp_order_id with
  | some tpid => cancelOrder paper tpid
  | none => paper

/-- The paper-side effect of the stop-loss exit: cancel the TP, place a
marketable limit sell at the current bid, poll up to 10 times for a
fill, and if still unfilled re-price once to the latest bid (the book is
quiescent during a step) and poll again. -/
def slExitPaper (cfg : PaperExecCfg) (now : ℚ) (sc : ScalpState) (pos : OpenPosition)
    (paper : PaperState) (bid : ℚ) : PaperState :=
  let pl := place (slCancelTp pos paper) now pos.asset_id .sell bid pos.qty false
  let r1 := pollFill cfg pl.2 pl.1 now 10
  if r1.2.2 then r1.1
  else
    match (sc.book pos.asset_id).1 with
    | none => r1.1
    | some bid2 =>
      (pollFill cfg (place r1.1 r1.2.1 pos.asset_id .sell bid2 pos.qty false).2
        (place r1.1 r1.2.1 pos.asset_id .sell bid2 pos.qty false).1 r1.2.1 10).1

/-- The stop-loss / remain-in-Filled tail of `step` (source lines
193-229), entered with the position still open and the two book checks
already passed.  `paper` already reflects the take-profit status poll. -/
def slCheck (cfg : PaperExecCfg) (now : ℚ) (sc : ScalpState) (pos : OpenPosition)
    (paper : PaperState) : SysState :=
  match (sc.book pos.asset_id).1 with
  | none => ⟨sc, paper⟩
  | some bid =>
    match pos.sl_price with
    | none => ⟨sc, paper⟩  -- unreachable when filled: float(None) would raise
    | some sl =>
      if bid ≤ sl then
        ⟨{ sc with sizer := sc.sizer.on_trade_closed false, pos := none },
          slExitPaper cfg now sc pos paper bid⟩
      else ⟨sc, paper⟩

/-- `ScalpMode.step` (one periodic tick of the position state machine),
wired to the paper execution. -/
def step (cfg : PaperExecCfg) (now : ℚ) (s : SysState) : SysState :=
  let sc := s.scalp
  let tte := tteSeconds sc now
  match sc.book sc.market.yes_asset, sc.book sc.market.no_asset with
  | (some yes_bid, some yes_ask), (some no_bid, some no_ask) =>
    match sc.pos with
    | none =>
      -- ---------------- ENTER ----------------
      match pick_entry_side_price_only tte yes_bid yes_ask no_bid no_ask sc.rules with
      | none => s
      | some (side, limit_px) =>
        let gb := getBalance cfg now s.paper
        let stake := sc.sizer.stake_usd gb.2
        let asset_id := match side with
          | .yes => sc.market.yes_asset
          | .no => sc.market.no_asset
        let qty := max (1/10000) (stake / limit_px)
        let pl := place gb.1 now asset_id .buy limit_px qty true
        ⟨{ sc with pos := some (OpenPosition.mk side asset_id qty pl.2 limit_px now
            none none none none) }, pl.1⟩
    | some pos =>
      -- ---------------- MANAGE ----------------
      match pos.fill_price with
      | none =>
        -- 1) entry TTL cancel, else poll the entry order
        if sc.rules.entry_ttl_seconds < now - pos.entry_ts then
          ⟨{ sc with pos := none }, cancelOrder s.paper pos.entry_order_id⟩
        else
          let go := getOrder cfg now s.paper pos.entry_order_id
          match go.2 with
          | some o =>
            if o.status = .filled then
              let fill_px := orFalsy (some (orFalsy o.avg_fill_price o.price)) pos.entry_post_price
              let br := bracket_prices fill_px sc.risk
              let pl := place go.1 now pos.asset_id .sell br.1 pos.qty true
              ⟨{ sc with pos := some ({ pos with
                  fill_price := some fill_px,
                  tp_price := some br.1,
                  sl_price := some br.2,
                  tp_order_id := some pl.2 }) }, pl.1⟩
            else ⟨sc, go.1⟩
          | none => ⟨sc, go.1⟩  -- "unknown" status: treated as still pending
      | some _ =>
        -- 2) TP filled? then 3) SL trigger
        match pos.tp_order_id with
        | some tpid =>
          let go := getOrder cfg now s.paper tpid
          if (go.2.map (fun o => o.status)) = some .filled then
            ⟨{ sc with sizer := sc.sizer.on_trade_closed true, pos := none }, go.1⟩
          else slCheck cfg now sc pos go.1
        | none => slCheck cfg now sc pos s.paper
  | _, _ => s

/-! ### Concrete engine scenarios (used by the C8-C10 witnesses)

A YES/NO market on assets `1`/`2` with the YES bid at `0.69`: the
engine holds 10 YES shares filled at `0.80` with `tp = 0.90`,
`sl = 0.70`, and the take-profit resting as order `5`. -/

def bookW : PriceCache := fun a =>
  if a = 1 then (some (69/100), some (71/100))
  else if a = 2 then (some (31/100), some (33/100))
  else (none, none)

def posW8 : OpenPosition :=
  { side := .yes, asset_id := 1, qty := 10, entry_order_id := 0,
    entry_post_price := 8/10, entry_ts := 0, fill_price := some (8/10),
    tp_price := some (9/10), sl_price := some (7/10), tp_order_id := some 5 }

def tpOrderW : Order :=
  { order_id := 5, asset_id := 1, side := .sell, price := 9/10, size := 10,
    post_only := true, status := .opn, created_ts := 0 }

def paperW8 : PaperState :=
  { cash := 460, inv := [(1, 10)], avg_cost := [(1, 8/10)], realized_pnl := 0,
    wins := 0, losses := 0, book := bookW, orders := [tpOrderW], next_id := 6 }

def scalpW8 : ScalpState :=
  { market := ⟨1, 2, 10000⟩, rules := {}, risk := {},
    sizer := ⟨{}, 3/10⟩, book := bookW, pos := some posW8 }

def sysW8 : SysState := ⟨scalpW8, paperW8⟩

/-- The C10 scenario: the same position, but the take-profit has already
filled (inventory gone, cash credited at `0.90`). -/
def tpOrderW10 : Order :=
  { tpOrderW with
    status := .filled,
    filled_ts := some 2,
    avg_fill_price := some (9/10) }

def paperW10 : PaperState :=
  { paperW8 with orders := [tpOrderW10], inv := [(1, 0)], cash := 469 }

def sysW10 : SysState := ⟨scalpW8, paperW10⟩

/-- The C9 scenario: an entry buy (order `0`) resting unfilled past its
time-to-live. -/
def posW9 : OpenPosition :=
  { side := .yes, asset_id := 1, qty := 10, entry_order_id := 0,
    entry_post_price := 8/10, entry_ts := 0 }

def entryOrderW : Order :=
  { order_id := 0, asset_id := 1, side := .buy, price := 8/10, size := 10,
    post_only := true, status := .opn, created_ts := 0 }

def paperW9 : PaperState :=
  { cash := 500, inv := [], avg_cost := [], realized_pnl := 0,
    wins := 0, losses := 0, book := bookW, orders := [entryOrderW], next_id := 1 }

def scalpW9 : ScalpState := { scalpW8 with pos := some posW9 }

def sysW9 : SysState := ⟨scalpW9, paperW9⟩

/-! ## Lemmas about the numeric helpers -/

theorem roundHalfEven_intCast (n : ℤ) : roundHalfEven (n : ℚ) = n := by
  unfold roundHalfEven
  simp only [Int.floor_intCast, sub_self]
  norm_num

/-- On a tick of the form `1/N` with `N ∣ 10^6`, `round_to_tick` returns
exactly the clamped tick multiple `max 1 (min (N-1) (round (x·N))) / N`
(the trailing `round(v, 6)` is the identity there). -/
theorem round_to_tick_unit_frac (x : ℚ) (N : ℕ) (h2 : 2 ≤ N) (hd : N ∣ 10 ^ 6) :
    round_to_tick x (1 / N) =
      ((max 1 (min ((N : ℤ) - 1) (roundHalfEven (x * N))) : ℤ) : ℚ) / N := by
  have hN0 : (0 : ℚ) < N := by
    exact_mod_cast Nat.lt_of_lt_of_le Nat.zero_lt_two h2
  have htick : ¬ (1 / (N : ℚ) ≤ 0) := not_le.mpr (by positivity)
  obtain ⟨d, hdd⟩ := hd
  have hd0 : (0 : ℚ) < d := by
    rcases Nat.eq_zero_or_pos d with h | h
    · subst h; simp at hdd
    · exact_mod_cast h
  set k : ℤ := roundHalfEven (x * N) with hk
  have hxdiv : x / (1 / (N : ℚ)) = x * N := by
    field_simp
  have hclamp : max (1 / (N : ℚ)) (min (1 - 1 / N) ((k : ℚ) * (1 / N)))
      = ((max 1 (min ((N : ℤ) - 1) k) : ℤ) : ℚ) / N := by
    have h1 : (k : ℚ) * (1 / N) = (k : ℚ) / N := by ring
    have h2' : (1 : ℚ) - 1 / N = (((N : ℤ) - 1 : ℤ) : ℚ) / N := by
      push_cast
      field_simp
    have h3 : (1 : ℚ) / N = ((1 : ℤ) : ℚ) / N := by norm_num
    rw [h1, h2', h3, min_div_div_right (le_of_lt hN0), max_div_div_right (le_of_lt hN0)]
    push_cast
    ring_nf
  have hd' : N * d = 1000000 := by rw [← hdd]; norm_num
  have h6 : (N : ℚ) * d = 1000000 := by exact_mod_cast hd'
  have hdne : (d : ℚ) ≠ 0 := ne_of_gt hd0
  have hNne : (N : ℚ) ≠ 0 := ne_of_gt hN0
  unfold round_to_tick
  rw [if_neg htick, hxdiv, ← hk, hclamp]
  set m : ℤ := max 1 (min ((N : ℤ) - 1) k) with hm
  have hmul : ((m : ℚ) / N) * 1000000 = ((m * d : ℤ) : ℚ) := by
    rw [← h6]
    push_cast
    field_simp
    ring
  unfold pyRound6
  rw [hmul, roundHalfEven_intCast]
  push_cast
  rw [← h6]
  field_simp
  ring

theorem round_to_tick_nonpos (x t : ℚ) (h : t ≤ 0) : round_to_tick x t = x := by
  unfold round_to_tick
  rw [if_pos h]

/-! ## Claim C6 -/

/-- C6 (corrected): `round_to_tick` returns `x` unmodified for `tick ≤ 0`;
and for a tick of the unit-fraction form `1/N` with `2 ≤ N` and
`N ∣ 10^6` (which includes the configured tick `0.01`), it is idempotent
and its result lies in `[tick, 1 - tick]`.  For other positive ticks the
trailing `round(v, 6)` and the clamp can break both properties (see the
counterexample). -/
theorem C6_round_to_tick_props :
    (∀ x t : ℚ, t ≤ 0 → round_to_tick x t = x) ∧
    (∀ (x : ℚ) (N : ℕ), 2 ≤ N → N ∣ 10 ^ 6 →
      round_to_tick (round_to_tick x (1 / N)) (1 / N) = round_to_tick x (1 / N) ∧
      1 / (N : ℚ) ≤ round_to_tick x (1 / N) ∧
      round_to_tick x (1 / N) ≤ 1 - 1 / N) := by
  constructor
  · exact fun x t h => round_to_tick_nonpos x t h
  · intro x N h2 hd
    have hN0 : (0 : ℚ) < N := by
      exact_mod_cast Nat.lt_of_lt_of_le Nat.zero_lt_two h2
    have hNne : (N : ℚ) ≠ 0 := ne_of_gt hN0
    have key := round_to_tick_unit_frac x N h2 hd
    set k : ℤ := roundHalfEven (x * N) with hk
    set m : ℤ := max 1 (min ((N : ℤ) - 1) k) with hm
    have h1m : (1 : ℤ) ≤ m := le_max_left _ _
    have hmN : m ≤ (N : ℤ) - 1 := by
      apply max_le
      · have : (2 : ℤ) ≤ N := by exact_mod_cast h2
        omega
      · exact min_le_left _ _
    refine ⟨?_, ?_, ?_⟩
    · rw [key]
      have key2 := round_to_tick_unit_frac ((m : ℚ) / N) N h2 hd
      rw [key2]
      have hcan : ((m : ℚ) / N) * N = (m : ℚ) := by field_simp
      rw [hcan, roundHalfEven_intCast, min_eq_right hmN, max_eq_right h1m]
    · rw [key]
      rw [ge_iff_le.symm, ge_iff_le, div_le_div_iff_of_pos_right hN0]
      exact_mod_cast h1m
    · rw [key]
      have hstep : ((m : ℚ)) / N ≤ ((N : ℚ) - 1) / N := by
        rw [div_le_div_iff_of_pos_right hN0]
        exact_mod_cast hmN
      have : ((N : ℚ) - 1) / N = 1 - 1 / N := by field_simp
      rw [← this]
      exact hstep

/-- C6 counterexample: for `tick = 3/10 > 0` and `x = 2`,
`round_to_tick` is not idempotent (`rt 2 = 0.7` but `rt 0.7 = 0.6`), so
the claim's "for every tick > 0" fails. -/
theorem C6_cex :
    (0 : ℚ) < 3 / 10 ∧
    round_to_tick 2 (3 / 10) = 7 / 10 ∧
    round_to_tick (round_to_tick 2 (3 / 10)) (3 / 10) = 3 / 5 ∧
    round_to_tick (round_to_tick 2 (3 / 10)) (3 / 10) ≠ round_to_tick 2 (3 / 10) := by
  have h1 : round_to_tick 2 (3 / 10) = 7 / 10 := by
    norm_num [round_to_tick, pyRound6, roundHalfEven]
  have h2 : round_to_tick (7 / 10 : ℚ) (3 / 10) = 3 / 5 := by
    norm_num [round_to_tick, pyRound6, roundHalfEven]
  refine ⟨by norm_num, h1, by rw [h1, h2], by rw [h1, h2]; norm_num⟩

/-- C6 witness: the amended theorem applied at `x = 2`, `N = 100`
(the production tick `0.01`). -/
theorem C6_witness :
    round_to_tick (round_to_tick 2 (1 / (100 : ℕ))) (1 / (100 : ℕ)) =
      round_to_tick 2 (1 / (100 : ℕ)) ∧
    1 / ((100 : ℕ) : ℚ) ≤ round_to_tick 2 (1 / (100 : ℕ)) ∧
    round_to_tick 2 (1 / (100 : ℕ)) ≤ 1 - 1 / (100 : ℕ) :=
  C6_round_to_tick_props.2 2 100 (by norm_num) (by norm_num)

/-! ## Claim C7 -/

theorem on_trade_closed_risk (s : DynamicSizer) (w : Bool) :
    (s.on_trade_closed w).risk = s.risk := by
  cases w <;> rfl

/-- C7 (confirmed): for a nonnegative step, starting from a bet fraction
inside `[bet_frac_min, bet_frac_max]`, no win/loss history can push
`bet_frac` outside the interval. -/
theorem C7_bet_fraction_bounded (ws : List Bool) (s : DynamicSizer)
    (hstep : 0 ≤ s.risk.bet_frac_step)
    (hlo : s.risk.bet_frac_min ≤ s.bet_frac)
    (hhi : s.bet_frac ≤ s.risk.bet_frac_max) :
    s.risk.bet_frac_min ≤ (s.runClosed ws).bet_frac ∧
      (s.runClosed ws).bet_frac ≤ s.risk.bet_frac_max := by
  induction ws generalizing s with
  | nil => exact ⟨hlo, hhi⟩
  | cons w ws ih =>
    have hr := on_trade_closed_risk s w
    have h1 : s.risk.bet_frac_min ≤ (s.on_trade_closed w).bet_frac := by
      cases w with
      | false =>
        simp only [DynamicSizer.on_trade_closed, if_neg Bool.false_ne_true]
        exact le_min (hlo.trans hhi) (hlo.trans (le_add_of_nonneg_right hstep))
      | true =>
        simp only [DynamicSizer.on_trade_closed, if_pos rfl]
        exact le_max_left _ _
    have h2 : (s.on_trade_closed w).bet_frac ≤ s.risk.bet_frac_max := by
      cases w with
      | false =>
        simp only [DynamicSizer.on_trade_closed, if_neg Bool.false_ne_true]
        exact min_le_left _ _
      | true =>
        simp only [DynamicSizer.on_trade_closed, if_pos rfl]
        exact max_le (hlo.trans hhi) ((sub_le_self _ hstep).trans hhi)
    have := ih (s.on_trade_closed w) (hr ▸ hstep) (hr ▸ h1) (hr ▸ h2)
    rw [hr] at this
    exact this

/-- C7 witness: default risk parameters (start `0.5`, step `0.01`,
bounds `[0.01, 0.5]`) and the history loss-win-loss-loss. -/
theorem C7_witness :
    ({ risk := {}, bet_frac := 1/2 } : DynamicSizer).risk.bet_frac_min ≤
      (({ risk := {}, bet_frac := 1/2 } : DynamicSizer).runClosed
        [false, true, false, false]).bet_frac ∧
    (({ risk := {}, bet_frac := 1/2 } : DynamicSizer).runClosed
        [false, true, false, false]).bet_frac ≤
      ({ risk := {}, bet_frac := 1/2 } : DynamicSizer).risk.bet_frac_max :=
  C7_bet_fraction_bounded [false, true, false, false] _
    (by norm_num) (by norm_num) (by norm_num)

/-! ## Lemmas about the window scanner -/

theorem mem_insertByTte (x c : Cand) (l : List Cand) :
    x ∈ insertByTte c l ↔ x = c ∨ x ∈ l := by
  induction l with
  | nil => simp [insertByTte]
  | cons d ds ih =>
    rw [insertByTte]
    by_cases hc : c.tte ≤ d.tte
    · rw [if_pos hc]
      simp [List.mem_cons]
    · rw [if_neg hc]
      simp [List.mem_cons, ih]
      tauto

theorem mem_sortByTte (x : Cand) (l : List Cand) :
    x ∈ sortByTte l ↔ x ∈ l := by
  induction l with
  | nil => simp [sortByTte]
  | cons c cs ih =>
    rw [sortByTte, mem_insertByTte]
    simp [List.mem_cons, ih]

theorem insertByTte_pairwise (c : Cand) (l : List Cand)
    (h : l.Pairwise (fun a b => a.tte ≤ b.tte)) :
    (insertByTte c l).Pairwise (fun a b => a.tte ≤ b.tte) := by
  induction l with
  | nil => simp [insertByTte]
  | cons d ds ih =>
    rw [insertByTte]
    rcases List.pairwise_cons.mp h with ⟨hall, hds⟩
    by_cases hc : c.tte ≤ d.tte
    · rw [if_pos hc]
      refine List.pairwise_cons.mpr ⟨?_, h⟩
      intro x hx
      rcases List.mem_cons.mp hx with rfl | hx
      · exact hc
      · exact hc.trans (hall x hx)
    · rw [if_neg hc]
      refine List.pairwise_cons.mpr ⟨?_, ih hds⟩
      intro x hx
      rcases (mem_insertByTte x c ds).mp hx with rfl | hx
      · exact le_of_not_le hc
      · exact hall x hx

theorem sortByTte_pairwise (l : List Cand) :
    (sortByTte l).Pairwise (fun a b => a.tte ≤ b.tte) := by
  induction l with
  | nil => simp [sortByTte]
  | cons c cs ih => exact insertByTte_pairwise c (sortByTte cs) ih

/-- `_pick_best` returns a member of the candidate list whose `tte` is
minimal. -/
theorem pick_best_spec (l : List Cand) (b : Cand) (h : pick_best l = some b) :
    b ∈ l ∧ ∀ c ∈ l, b.tte ≤ c.tte := by
  unfold pick_best at h
  cases hs : sortByTte l with
  | nil => rw [hs] at h; simp at h
  | cons a rest =>
    rw [hs] at h
    simp only [List.head?, Option.some_inj] at h
    have hpw := sortByTte_pairwise l
    rw [hs] at hpw
    rcases List.pairwise_cons.mp hpw with ⟨hall, _⟩
    have hmem : a ∈ l :=
      (mem_sortByTte a l).mp (by rw [hs]; exact List.mem_cons_self _ _)
    have hmin : ∀ c ∈ l, a.tte ≤ c.tte := by
      intro c hc
      have hc' : c ∈ a :: rest := by
        rw [← hs]
        exact (mem_sortByTte c l).mpr hc
      rcases List.mem_cons.mp hc' with rfl | hx
      · exact le_refl _
      · exact hall c hx
    rw [← h]
    exact ⟨hmem, hmin⟩

/-- Every candidate the scan loop accepts was fetched, extracted
successfully, and has `min_tte < tte ≤ max_tte`. -/
theorem processSlug_some_spec (fetch : String → Option EventObj)
    (now minT maxT : ℤ) (slug : String) (c : Cand)
    (h : processSlug fetch now minT maxT slug = some c) :
    minT < c.tte ∧ c.tte ≤ maxT ∧ c.slug = slug ∧ c.tte = c.end_ts - now ∧
      ∃ ev, fetch slug = some ev ∧
        extract_tokens_and_end ev = some (c.yes, c.no, c.end_ts) := by
  unfold processSlug at h
  cases hf : fetch slug with
  | none => rw [hf] at h; simp at h
  | some ev =>
    rw [hf] at h
    simp only at h
    cases he : extract_tokens_and_end ev with
    | none => rw [he] at h; simp at h
    | some t =>
      obtain ⟨y, n, e⟩ := t
      rw [he] at h
      simp only at h
      by_cases h1 : e - now ≤ minT
      · rw [if_pos h1] at h; simp at h
      · rw [if_neg h1] at h
        by_cases h2 : maxT < e - now
        · rw [if_pos h2] at h; simp at h
        · rw [if_neg h2] at h
          simp only [Option.some_inj] at h
          subst h
          exact ⟨lt_of_not_le h1, le_of_not_lt h2, rfl, rfl, ev, rfl, he⟩

/-- Malformed metadata, a failed fetch, or an out-of-bounds `tte`
rejects the candidate. -/
theorem processSlug_rejects (fetch : String → Option EventObj)
    (now minT maxT : ℤ) (slug : String)
    (h : fetch slug = none ∨
      (∃ ev, fetch slug = some ev ∧ extract_tokens_and_end ev = none) ∨
      (∃ ev y n e, fetch slug = some ev ∧
        extract_tokens_and_end ev = some (y, n, e) ∧
        (e - now ≤ minT ∨ maxT < e - now))) :
    processSlug fetch now minT maxT slug = none := by
  unfold processSlug
  rcases h with h | ⟨ev, hf, he⟩ | ⟨ev, y, n, e, hf, he, hb⟩
  · rw [h]
  · rw [hf]
    simp [he]
  · rw [hf]
    simp only [he]
    rcases hb with hb | hb
    · simp [hb]
    · by_cases h1 : e - now ≤ minT
      · simp [h1]
      · simp [h1, hb]

/-! ## Claim C2 -/

/-- C2 (confirmed): the scanner rejects candidates whose fetch fails,
whose metadata is malformed (no extractable token pair / end date),
or whose `tte = end_ts - now` is not in `(min_tte, max_tte]`; every
accepted candidate is well-formed with in-bounds `tte`; `_pick_best`
returns an accepted candidate of minimal `tte`; and on the concrete
scenario with `tte ∈ {50, 700, 1100}` and bounds `min=120, max=1200` the
scan selects the `tte = 700` candidate. -/
theorem C2_scanner_selection :
    (∀ (fetch : String → Option EventObj) (now minT maxT : ℤ) (slug : String) (c : Cand),
      processSlug fetch now minT maxT slug = some c →
        minT < c.tte ∧ c.tte ≤ maxT ∧ c.slug = slug ∧ c.tte = c.end_ts - now ∧
        ∃ ev, fetch slug = some ev ∧
          extract_tokens_and_end ev = some (c.yes, c.no, c.end_ts)) ∧
    (∀ (fetch : String → Option EventObj) (now minT maxT : ℤ) (slug : String),
      (fetch slug = none ∨
        (∃ ev, fetch slug = some ev ∧ extract_tokens_and_end ev = none) ∨
        (∃ ev y n e, fetch slug = some ev ∧
          extract_tokens_and_end ev = some (y, n, e) ∧
          (e - now ≤ minT ∨ maxT < e - now))) →
      processSlug fetch now minT maxT slug = none) ∧
    (∀ (candidates : List Cand) (b : Cand), pick_best candidates = some b →
      b ∈ candidates ∧ ∀ c ∈ candidates, b.tte ≤ c.tte) ∧
    scan_btc_15m_by_slug fetchC2 [] paramsC2 1000 120 1200 =
      some ⟨700, "btc-updown-15m-1800", "y2", "n2", 1700⟩ :=
  ⟨processSlug_some_spec, processSlug_rejects, pick_best_spec, rfl⟩

/-- C2 witness: the acceptance bounds instantiated on the concrete
scenario's accepted `tte = 700` candidate. -/
theorem C2_witness :
    (120 : ℤ) < 700 ∧ (700 : ℤ) ≤ 1200 ∧
      (Cand.mk 700 "btc-updown-15m-1800" "y2" "n2" 1700).slug = "btc-updown-15m-1800" ∧
      (700 : ℤ) = 1700 - 1000 ∧
      ∃ ev, fetchC2 "btc-updown-15m-1800" = some ev ∧
        extract_tokens_and_end ev = some ("y2", "n2", 1700) :=
  C2_scanner_selection.1 fetchC2 1000 120 1200 "btc-updown-15m-1800"
    ⟨700, "btc-updown-15m-1800", "y2", "n2", 1700⟩ (by decide)

/-! ## Lemmas about the association-list dicts -/

theorem find_map_upd_self (l : List (AssetId × ℚ)) (k : AssetId) (v : ℚ)
    (h : l.any (fun p => p.1 = k) = true) :
    (l.map (fun p => if p.1 = k then (k, v) else p)).find? (fun p => p.1 = k)
      = some (k, v) := by
  induction l with
  | nil => simp at h
  | cons p ps ih =>
    by_cases hp : p.1 = k
    · simp [List.find?, hp]
    · have h' : ps.any (fun p => p.1 = k) = true := by
        simp only [List.any_cons, Bool.or_eq_true, decide_eq_true_eq] at h
        rcases h with h | h
        · exact absurd h hp
        · simpa using h
      simp only [List.map_cons, if_neg hp]
      rw [List.find?_cons_of_neg _ (by simpa using hp)]
      exact ih h'

theorem find_append_single (l : List (AssetId × ℚ)) (k : AssetId) (v : ℚ)
    (h : ∀ q ∈ l, ¬ q.1 = k) :
    (l ++ [(k, v)]).find? (fun p => p.1 = k) = some (k, v) := by
  induction l with
  | nil => simp [List.find?]
  | cons p ps ih =>
    simp only [List.cons_append]
    rw [List.find?_cons_of_neg _ (by simpa using h p (List.mem_cons_self _ _))]
    exact ih (fun q hq => h q (List.mem_cons_of_mem _ hq))

theorem getA_updA_self (l : List (AssetId × ℚ)) (k : AssetId) (v : ℚ) :
    getA (updA l k v) k = v := by
  unfold getA updA
  by_cases h : l.any (fun p => p.1 = k)
  · rw [if_pos h, find_map_upd_self l k v h]
    rfl
  · have h' : ∀ q ∈ l, ¬ q.1 = k := by
      intro q hq hk
      exact h (List.any_eq_true.mpr ⟨q, hq, by simp [hk]⟩)
    rw [if_neg h, find_append_single l k v h']
    rfl

theorem find_map_upd_ne (l : List (AssetId × ℚ)) (k k' : AssetId) (v : ℚ)
    (h : k' ≠ k) :
    ((l.map (fun p => if p.1 = k then (k, v) else p)).find?
        (fun p => p.1 = k')).map (fun p => p.2)
      = (l.find? (fun p => p.1 = k')).map (fun p => p.2) := by
  induction l with
  | nil => rfl
  | cons p ps ih =>
    by_cases hp : p.1 = k
    · simp only [List.map_cons, if_pos hp]
      rw [List.find?_cons_of_neg _ (by simpa using Ne.symm h),
        List.find?_cons_of_neg _ (by simpa [hp] using Ne.symm h)]
      exact ih
    · simp only [List.map_cons, if_neg hp]
      by_cases hp' : p.1 = k'
      · rw [List.find?_cons_of_pos _ (by simpa using hp'),
          List.find?_cons_of_pos _ (by simpa using hp')]
      · rw [List.find?_cons_of_neg _ (by simpa using hp'),
          List.find?_cons_of_neg _ (by simpa using hp')]
        exact ih

theorem getA_updA_ne (l : List (AssetId × ℚ)) (k k' : AssetId) (v : ℚ)
    (h : k' ≠ k) : getA (updA l k v) k' = getA l k' := by
  unfold getA updA
  by_cases hl : l.any (fun p => p.1 = k)
  · rw [if_pos hl, find_map_upd_ne l k k' v h]
  · rw [if_neg hl, List.find?_append]
    cases hf : l.find? (fun p => p.1 = k') with
    | some q => simp
    | none =>
      simp only [Option.none_or]
      rw [List.find?_cons_of_neg _ (by simpa using Ne.symm h)]
      rfl

/-! ## Lemmas about the fill sweep -/

theorem sweepStep_not_open (cfg : PaperExecCfg) (book : PriceCache) (now : ℚ)
    (led : Ledger) (o : Order) (h : o.status ≠ .opn) :
    sweepStep cfg book now led o = (led, o) := by
  unfold sweepStep
  rw [if_pos h]

theorem sweepStep_young (cfg : PaperExecCfg) (book : PriceCache) (now : ℚ)
    (led : Ledger) (o : Order) (h : now - o.created_ts < cfg.fill_delay_sec) :
    sweepStep cfg book now led o = (led, o) := by
  unfold sweepStep
  by_cases hs : o.status ≠ .opn
  · rw [if_pos hs]
  · rw [if_neg hs, if_pos h]

/-- An aged open buy order whose price touches the bid (both book sides
present) and whose cost fits in cash (up to the `1e-9` slack) fills:
cash is debited, inventory increased, the average cost recomputed
size-weighted, and the order marked filled at its own price. -/
theorem sweepStep_buy_fill (cfg : PaperExecCfg) (book : PriceCache) (now : ℚ)
    (led : Ledger) (o : Order) (bid ask : ℚ)
    (hopen : o.status = .opn)
    (hage : ¬ now - o.created_ts < cfg.fill_delay_sec)
    (hbook : book o.asset_id = (some bid, some ask))
    (hside : o.side = .buy)
    (hprice : |o.price - bid| ≤ cfg.tick / 2)
    (hcash : o.price * o.size ≤ led.cash + 1/1000000000) :
    sweepStep cfg book now led o =
      ({ led with
          cash := led.cash - o.price * o.size,
          inv := updA led.inv o.asset_id (getA led.inv o.asset_id + o.size),
          avg_cost := updA led.avg_cost o.asset_id
            ((getA led.inv o.asset_id * getA led.avg_cost o.asset_id
                + o.size * o.price) / (getA led.inv o.asset_id + o.size)) },
        markFilled o now o.price) := by
  unfold sweepStep
  rw [if_neg (by simp [hopen]), if_neg hage, hbook]
  simp only [hside]
  rw [if_pos hprice, if_pos hcash]

/-- An aged open sell order (both book sides present) whose price is at
or below the bid plus the `1e-9` slack, with a positive fillable
quantity `min held size`, fills: realized pnl moves by
`sell_sz * (price - avg_cost)`, the win (loss) counter increments iff
that delta exceeds `1e-9` (is below `-1e-9`), cash is credited,
inventory decremented with sub-`1e-12` dust snapped to zero together
with the cost basis, and the order marked filled at its own price. -/
theorem sweepStep_sell_fill (cfg : PaperExecCfg) (book : PriceCache) (now : ℚ)
    (led : Ledger) (o : Order) (bid ask : ℚ)
    (hopen : o.status = .opn)
    (hage : ¬ now - o.created_ts < cfg.fill_delay_sec)
    (hbook : book o.asset_id = (some bid, some ask))
    (hside : o.side = .sell)
    (hbid : o.price - 1/1000000000 ≤ bid)
    (hsz : 0 < min (getA led.inv o.asset_id) o.size) :
    sweepStep cfg book now led o =
      ({ led with
          cash := led.cash + o.price * min (getA led.inv o.asset_id) o.size,
          inv := updA led.inv o.asset_id
            (if getA led.inv o.asset_id - min (getA led.inv o.asset_id) o.size
                ≤ 1/1000000000000 then 0
              else getA led.inv o.asset_id - min (getA led.inv o.asset_id) o.size),
          avg_cost := if getA led.inv o.asset_id
                - min (getA led.inv o.asset_id) o.size ≤ 1/1000000000000 then
              updA led.avg_cost o.asset_id 0
            else led.avg_cost,
          realized_pnl := led.realized_pnl
            + min (getA led.inv o.asset_id) o.size
              * (o.price - getA led.avg_cost o.asset_id),
          wins := if 1/1000000000 < min (getA led.inv o.asset_id) o.size
                * (o.price - getA led.avg_cost o.asset_id) then
              led.wins + 1
            else led.wins,
          losses := if min (getA led.inv o.asset_id) o.size
                * (o.price - getA led.avg_cost o.asset_id) < -(1/1000000000) then
              led.losses + 1
            else led.losses },
        markFilled o now o.price) := by
  unfold sweepStep
  rw [if_neg (by simp [hopen]), if_neg hage, hbook]
  simp only [hside]
  rw [if_pos hbid, if_pos hsz]

/-- The sweep body preserves nonnegative inventory and the
"zero inventory has zero cost basis" relation, for orders of
nonnegative size. -/
theorem sweepStep_invOk (cfg : PaperExecCfg) (book : PriceCache) (now : ℚ)
    (led : Ledger) (o : Order)
    (hinv : ∀ a, 0 ≤ getA led.inv a)
    (hzero : ∀ a, getA led.inv a = 0 → getA led.avg_cost a = 0)
    (hsz : 0 ≤ o.size) :
    (∀ a, 0 ≤ getA (sweepStep cfg book now led o).1.inv a) ∧
    (∀ a, getA (sweepStep cfg book now led o).1.inv a = 0 →
      getA (sweepStep cfg book now led o).1.avg_cost a = 0) := by
  unfold sweepStep
  split
  · exact ⟨hinv, hzero⟩
  split
  · exact ⟨hinv, hzero⟩
  split
  · split
    · split
      · split
        · constructor
          · intro a
            by_cases ha : a = o.asset_id
            · rw [ha, getA_updA_self]
              exact add_nonneg (hinv o.asset_id) hsz
            · rw [getA_updA_ne _ _ _ _ ha]
              exact hinv a
          · intro a haz
            by_cases ha : a = o.asset_id
            · rw [ha] at haz ⊢
              rw [getA_updA_self] at haz
              rw [getA_updA_self]
              have h0 : getA led.inv o.asset_id = 0 ∧ o.size = 0 :=
                (add_eq_zero_iff_of_nonneg (hinv o.asset_id) hsz).mp haz
              rw [h0.1, h0.2]
              simp
            · rw [getA_updA_ne _ _ _ _ ha] at haz
              rw [getA_updA_ne _ _ _ _ ha]
              exact hzero a haz
        · exact ⟨hinv, hzero⟩
      · exact ⟨hinv, hzero⟩
    · split
      · split
        · constructor
          · intro a
            by_cases ha : a = o.asset_id
            · rw [ha, getA_updA_self]
              split
              · exact le_refl 0
              · exact sub_nonneg.mpr (min_le_left _ _)
            · rw [getA_updA_ne _ _ _ _ ha]
              exact hinv a
          · intro a haz
            by_cases ha : a = o.asset_id
            · rw [ha] at haz ⊢
              rw [getA_updA_self] at haz
              by_cases hdust : getA led.inv o.asset_id
                  - min (getA led.inv o.asset_id) o.size ≤ 1/1000000000000
              · simp only [if_pos hdust]
                rw [getA_updA_self]
              · rw [if_neg hdust] at haz
                exact absurd haz (by
                  have h1 := not_le.mp hdust
                  intro hz
                  rw [hz] at h1
                  norm_num at h1)
            · rw [getA_updA_ne _ _ _ _ ha] at haz
              split
              · rw [getA_updA_ne _ _ _ _ ha]
                exact hzero a haz
              · exact hzero a haz
        · exact ⟨hinv, hzero⟩
      · exact ⟨hinv, hzero⟩
  · exact ⟨hinv, hzero⟩

/-- The sweep body either leaves an order untouched or, if it was open,
marks it filled at its own price. -/
theorem sweepStep_order_pres (cfg : PaperExecCfg) (book : PriceCache) (now : ℚ)
    (led : Ledger) (o : Order) :
    (sweepStep cfg book now led o).2 = o ∨
      (o.status = .opn ∧ (sweepStep cfg book now led o).2 = markFilled o now o.price) := by
  unfold sweepStep
  split
  · left; rfl
  next h1 =>
    split
    · left; rfl
    · split
      · split
        · split
          · split
            · right; exact ⟨not_ne_iff.mp h1, rfl⟩
            · left; rfl
          · left; rfl
        · split
          · split
            · right; exact ⟨not_ne_iff.mp h1, rfl⟩
            · left; rfl
          · left; rfl
      · left; rfl

theorem OStatus_filled_eq_opn : (OStatus.filled = OStatus.opn) = False := by simp

theorem OStatus_canceled_eq_opn : (OStatus.canceled = OStatus.opn) = False := by simp

theorem sweepOrders_nil (cfg : PaperExecCfg) (book : PriceCache) (now : ℚ)
    (led : Ledger) : sweepOrders cfg book now led [] = (led, []) := rfl

theorem sweepOrders_cons (cfg : PaperExecCfg) (book : PriceCache) (now : ℚ)
    (led : Ledger) (o : Order) (os : List Order) :
    sweepOrders cfg book now led (o :: os) =
      ((sweepOrders cfg book now (sweepStep cfg book now led o).1 os).1,
        (sweepStep cfg book now led o).2 ::
          (sweepOrders cfg book now (sweepStep cfg book now led o).1 os).2) := rfl

theorem markFilled_size (o : Order) (now p : ℚ) : (markFilled o now p).size = o.size := rfl

theorem sweepOrders_invOk (cfg : PaperExecCfg) (book : PriceCache) (now : ℚ) :
    ∀ (orders : List Order) (led : Ledger),
    (∀ a, 0 ≤ getA led.inv a) →
    (∀ a, getA led.inv a = 0 → getA led.avg_cost a = 0) →
    (∀ o ∈ orders, 0 ≤ o.size) →
    (∀ a, 0 ≤ getA (sweepOrders cfg book now led orders).1.inv a) ∧
    (∀ a, getA (sweepOrders cfg book now led orders).1.inv a = 0 →
      getA (sweepOrders cfg book now led orders).1.avg_cost a = 0) ∧
    (∀ o' ∈ (sweepOrders cfg book now led orders).2, 0 ≤ o'.size) := by
  intro orders
  induction orders with
  | nil =>
    intro led hinv hzero _
    rw [sweepOrders_nil]
    exact ⟨hinv, hzero, by simp⟩
  | cons o os ih =>
    intro led hinv hzero hszs
    have hsz : 0 ≤ o.size := hszs o (List.mem_cons_self _ _)
    have hstep := sweepStep_invOk cfg book now led o hinv hzero hsz
    have hsz2 : 0 ≤ (sweepStep cfg book now led o).2.size := by
      rcases sweepStep_order_pres cfg book now led o with h | ⟨_, h⟩
      · rw [h]; exact hsz
      · rw [h, markFilled_size]; exact hsz
    have := ih (sweepStep cfg book now led o).1 hstep.1 hstep.2
      (fun o' ho' => hszs o' (List.mem_cons_of_mem _ ho'))
    rw [sweepOrders_cons]
    refine ⟨this.1, this.2.1, ?_⟩
    intro o' ho'
    rcases List.mem_cons.mp ho' with rfl | ho'
    · exact hsz2
    · exact this.2.2 o' ho'

theorem sweepOrders_ids (cfg : PaperExecCfg) (book : PriceCache) (now : ℚ) :
    ∀ (orders : List Order) (led : Ledger),
    ((sweepOrders cfg book now led orders).2).map (fun o => o.order_id)
      = orders.map (fun o => o.order_id) := by
  intro orders
  induction orders with
  | nil => intro led; rw [sweepOrders_nil]
  | cons o os ih =>
    intro led
    rw [sweepOrders_cons]
    simp only [List.map_cons]
    rw [ih]
    rcases sweepStep_order_pres cfg book now led o with h | ⟨_, h⟩
    · rw [h]
    · rw [h]; rfl

/-- Membership of an order satisfying `Φ` survives a sweep, provided `Φ`
survives `markFilled` on open orders. -/
theorem sweepOrders_keep (cfg : PaperExecCfg) (book : PriceCache) (now : ℚ)
    (Φ : Order → Prop)
    (hΦ : ∀ o, Φ o → o.status = .opn → Φ (markFilled o now o.price)) :
    ∀ (orders : List Order) (led : Ledger),
    (∃ o ∈ orders, Φ o) →
    ∃ o' ∈ (sweepOrders cfg book now led orders).2, Φ o' := by
  intro orders
  induction orders with
  | nil =>
    intro led h
    simp at h
  | cons o os ih =>
    intro led ⟨w, hw, hΦw⟩
    rw [sweepOrders_cons]
    rcases List.mem_cons.mp hw with rfl | hw
    · rcases sweepStep_order_pres cfg book now led w with h | ⟨hop, h⟩
      · exact ⟨(sweepStep cfg book now led w).2, List.mem_cons_self _ _,
          by rw [h]; exact hΦw⟩
      · refine ⟨(sweepStep cfg book now led w).2, List.mem_cons_self _ _, ?_⟩
        rw [h]
        exact hΦ w hΦw hop
    · obtain ⟨o', ho', hΦ'⟩ := ih (sweepStep cfg book now led o).1 ⟨w, hw, hΦw⟩
      exact ⟨o', List.mem_cons_of_mem _ ho', hΦ'⟩

theorem maybeFillAll_eq (cfg : PaperExecCfg) (now : ℚ) (s : PaperState) :
    maybeFillAll cfg now s =
      { s with
        toLedger := (sweepOrders cfg s.book now s.toLedger s.orders).1,
        orders := (sweepOrders cfg s.book now s.toLedger s.orders).2 } := rfl

theorem maybeFillAll_ids (cfg : PaperExecCfg) (now : ℚ) (s : PaperState) :
    ((maybeFillAll cfg now s).orders).map (fun o => o.order_id)
      = s.orders.map (fun o => o.order_id) :=
  sweepOrders_ids cfg s.book now s.orders s.toLedger

theorem maybeFillAll_keep (cfg : PaperExecCfg) (now : ℚ) (s : PaperState)
    (Φ : Order → Prop)
    (hΦ : ∀ o, Φ o → o.status = .opn → Φ (markFilled o now o.price))
    (h : ∃ o ∈ s.orders, Φ o) :
    ∃ o' ∈ (maybeFillAll cfg now s).orders, Φ o' :=
  sweepOrders_keep cfg s.book now Φ hΦ s.orders s.toLedger h

/-! ## Claim C1 -/

theorem runOps_nil (cfg : PaperExecCfg) (s : PaperState) : runOps cfg s [] = s := rfl

theorem runOps_cons (cfg : PaperExecCfg) (s : PaperState) (op : PaperOp)
    (ops : List PaperOp) :
    runOps cfg s (op :: ops) = runOps cfg (applyOp cfg s op) ops := rfl

/-- One public operation preserves the ledger invariant, provided it only
places nonnegative sizes. -/
theorem applyOp_invOk (cfg : PaperExecCfg) (s : PaperState) (op : PaperOp)
    (hinv : ∀ a, 0 ≤ getA s.inv a)
    (hzero : ∀ a, getA s.inv a = 0 → getA s.avg_cost a = 0)
    (hszs : ∀ o ∈ s.orders, 0 ≤ o.size)
    (hop : op.sizeOk) :
    (∀ a, 0 ≤ getA (applyOp cfg s op).inv a) ∧
    (∀ a, getA (applyOp cfg s op).inv a = 0 →
      getA (applyOp cfg s op).avg_cost a = 0) ∧
    (∀ o ∈ (applyOp cfg s op).orders, 0 ≤ o.size) := by
  cases op with
  | setBook a bid ask => exact ⟨hinv, hzero, hszs⟩
  | placeBuy t a p z =>
    refine ⟨hinv, hzero, ?_⟩
    intro o ho
    rcases List.mem_append.mp ho with ho | ho
    · exact hszs o ho
    · rcases List.mem_singleton.mp ho with rfl
      exact hop
  | placeSellPO t a p z =>
    refine ⟨hinv, hzero, ?_⟩
    intro o ho
    rcases List.mem_append.mp ho with ho | ho
    · exact hszs o ho
    · rcases List.mem_singleton.mp ho with rfl
      exact hop
  | placeSell t a p z =>
    refine ⟨hinv, hzero, ?_⟩
    intro o ho
    rcases List.mem_append.mp ho with ho | ho
    · exact hszs o ho
    · rcases List.mem_singleton.mp ho with rfl
      exact hop
  | cancel oid =>
    refine ⟨hinv, hzero, ?_⟩
    intro o ho
    obtain ⟨o0, ho0, rfl⟩ := List.mem_map.mp ho
    split
    · exact hszs o0 ho0
    · exact hszs o0 ho0
  | getOrd t oid =>
    have := sweepOrders_invOk cfg s.book t s.orders s.toLedger hinv hzero hszs
    exact this
  | balance t =>
    have := sweepOrders_invOk cfg s.book t s.orders s.toLedger hinv hzero hszs
    exact this
  | snapshot t =>
    have := sweepOrders_invOk cfg s.book t s.orders s.toLedger hinv hzero hszs
    exact this

theorem runOps_invOk (cfg : PaperExecCfg) (ops : List PaperOp) :
    ∀ (s : PaperState),
    (∀ a, 0 ≤ getA s.inv a) →
    (∀ a, getA s.inv a = 0 → getA s.avg_cost a = 0) →
    (∀ o ∈ s.orders, 0 ≤ o.size) →
    (∀ op ∈ ops, op.sizeOk) →
    (∀ a, 0 ≤ getA (runOps cfg s ops).inv a) ∧
    (∀ a, getA (runOps cfg s ops).inv a = 0 →
      getA (runOps cfg s ops).avg_cost a = 0) ∧
    (∀ o ∈ (runOps cfg s ops).orders, 0 ≤ o.size) := by
  induction ops with
  | nil =>
    intro s hinv hzero hszs _
    exact ⟨hinv, hzero, hszs⟩
  | cons op ops ih =>
    intro s hinv hzero hszs hops
    rw [runOps_cons]
    have h1 := applyOp_invOk cfg s op hinv hzero hszs (hops op (List.mem_cons_self _ _))
    exact ih (applyOp cfg s op) h1.1 h1.2.1 h1.2.2
      (fun op' h => hops op' (List.mem_cons_of_mem _ h))

/-- C1 (corrected): starting from the initial state, provided every
placed order has nonnegative size, inventory is nonnegative after every
operation sequence and the cost basis is zero whenever inventory is
exactly zero (a sell leaving dust `≤ 1e-12` snaps both to zero).  The
original claim, with no restriction on placement sizes and with reset
"whenever inventory reaches (near-)zero", is refuted by the
counterexample. -/
theorem C1_inventory_invariant (cfg : PaperExecCfg) (ops : List PaperOp)
    (h : ∀ op ∈ ops, op.sizeOk) :
    (∀ a, 0 ≤ getA (runOps cfg (initPaper cfg) ops).inv a) ∧
    (∀ a, getA (runOps cfg (initPaper cfg) ops).inv a = 0 →
      getA (runOps cfg (initPaper cfg) ops).avg_cost a = 0) := by
  have := runOps_invOk cfg ops (initPaper cfg)
    (fun a => le_refl 0) (fun a _ => rfl) (by simp [initPaper]) h
  exact ⟨this.1, this.2.1⟩

/-- C1 counterexample: (a) a buy of size `-5` fills (its negative cost
fits in cash) and drives inventory to `-5 < 0`; (b) a buy of the dust
size `1e-13` leaves inventory near-zero (`≤ 1e-12`) with the cost basis
still at `0.8`, so "cost basis is reset whenever inventory reaches
(near-)zero" also fails as stated. -/
theorem C1_cex :
    getA (runOps {} (initPaper {})
      [.setBook 1 (some (8/10)) (some (82/100)),
       .placeBuy 0 1 (8/10) (-5), .balance 2]).inv 1 < 0 ∧
    (getA (runOps {} (initPaper {})
      [.setBook 1 (some (8/10)) (some (82/100)),
       .placeBuy 0 1 (8/10) (1/10000000000000), .balance 2]).inv 1
        ≤ 1/1000000000000 ∧
     getA (runOps {} (initPaper {})
      [.setBook 1 (some (8/10)) (some (82/100)),
       .placeBuy 0 1 (8/10) (1/10000000000000), .balance 2]).inv 1 ≠ 0 ∧
     getA (runOps {} (initPaper {})
      [.setBook 1 (some (8/10)) (some (82/100)),
       .placeBuy 0 1 (8/10) (1/10000000000000), .balance 2]).avg_cost 1 = 8/10) := by
  refine ⟨?_, ?_, ?_, ?_⟩ <;>
    norm_num [runOps, applyOp, initPaper, maybeFillAll, sweepOrders, sweepStep,
      place, updBook, markFilled, getA, updA]

/-- C1 witness: the amended invariant on the concrete nonnegative-size
scenario (buy 50 shares at 0.80 from cash 500). -/
theorem C1_witness :
    0 ≤ getA (runOps {} (initPaper {})
      [.setBook 1 (some (8/10)) (some (82/100)),
       .placeBuy 0 1 (8/10) 50, .balance 2]).inv 1 :=
  (C1_inventory_invariant {}
    [.setBook 1 (some (8/10)) (some (82/100)),
     .placeBuy 0 1 (8/10) 50, .balance 2]
    (by intro op hop; fin_cases hop <;> norm_num [PaperOp.sizeOk])).1 1

/-! ## Claim C3 -/

/-- C3 (corrected): in a fill sweep, an open buy order older than the
fill delay whose price is within `tick/2` of the current bid and whose
cost `price*size` fits in cash (up to the code's `1e-9` slack) fills —
cash is debited by `price*size`, inventory increases by `size`, the
average cost is recomputed size-weighted, and the order is marked
`filled` with `avg_fill_price` equal to the order price — provided,
additionally to the claim's conditions, that the ask side of the book is
also present (the code skips any order whose asset has `bid is None or
ask is None`; see the counterexample).  Concretely, from cash `500`, a
buy of 50 shares at `0.80` that fills leaves
`cash = 460, inventory = 50, avg_cost = 0.80`. -/
theorem C3_buy_fill_effects :
    (∀ (cfg : PaperExecCfg) (book : PriceCache) (now : ℚ) (led : Ledger)
      (o : Order) (bid ask : ℚ),
      o.status = .opn →
      ¬ now - o.created_ts < cfg.fill_delay_sec →
      book o.asset_id = (some bid, some ask) →
      o.side = .buy →
      |o.price - bid| ≤ cfg.tick / 2 →
      o.price * o.size ≤ led.cash + 1/1000000000 →
      sweepStep cfg book now led o =
        ({ led with
            cash := led.cash - o.price * o.size,
            inv := updA led.inv o.asset_id (getA led.inv o.asset_id + o.size),
            avg_cost := updA led.avg_cost o.asset_id
              ((getA led.inv o.asset_id * getA led.avg_cost o.asset_id
                  + o.size * o.price) / (getA led.inv o.asset_id + o.size)) },
          markFilled o now o.price)) ∧
    ((runOps {} (initPaper {})
        [.setBook 1 (some (8/10)) (some (82/100)),
         .placeBuy 0 1 (8/10) 50, .balance 2]).cash = 460 ∧
      getA (runOps {} (initPaper {})
        [.setBook 1 (some (8/10)) (some (82/100)),
         .placeBuy 0 1 (8/10) 50, .balance 2]).inv 1 = 50 ∧
      getA (runOps {} (initPaper {})
        [.setBook 1 (some (8/10)) (some (82/100)),
         .placeBuy 0 1 (8/10) 50, .balance 2]).avg_cost 1 = 8/10 ∧
      ∀ o ∈ (runOps {} (initPaper {})
        [.setBook 1 (some (8/10)) (some (82/100)),
         .placeBuy 0 1 (8/10) 50, .balance 2]).orders,
        o.status = .filled ∧ o.avg_fill_price = some (8/10)) := by
  constructor
  · exact sweepStep_buy_fill
  · refine ⟨?_, ?_, ?_, ?_⟩ <;>
      norm_num [runOps, applyOp, initPaper, maybeFillAll, sweepOrders, sweepStep,
        place, updBook, markFilled, getA, updA]

/-- C3 counterexample: an aged open buy whose price equals the present
bid and whose cost fits in cash is nevertheless left `open` when the
ask side of the book is absent, although every condition listed by the
claim holds. -/
theorem C3_cex :
    (∀ o ∈ (runOps {} (initPaper {})
        [.setBook 1 (some (8/10)) none,
         .placeBuy 0 1 (8/10) 50, .balance 2]).orders,
      o.status = .opn ∧ o.side = .buy ∧ o.price = 8/10 ∧
        o.size = 50 ∧ o.created_ts = 0) ∧
    (runOps {} (initPaper {})
        [.setBook 1 (some (8/10)) none,
         .placeBuy 0 1 (8/10) 50, .balance 2]).orders ≠ [] ∧
    (runOps {} (initPaper {})
        [.setBook 1 (some (8/10)) none,
         .placeBuy 0 1 (8/10) 50, .balance 2]).book 1 = (some (8/10), none) ∧
    |(8/10 : ℚ) - 8/10| ≤ (1/100) / 2 ∧ (8/10 : ℚ) * 50 ≤ 500 + 1/1000000000 := by
  refine ⟨?_, ?_, ?_, ?_, ?_⟩ <;>
    norm_num [runOps, applyOp, initPaper, maybeFillAll, sweepOrders, sweepStep,
      place, updBook, markFilled, getA, updA]

/-- C3 witness: the general buy-fill effect instantiated on the concrete
scenario order (50 shares at 0.80 against cash 500, bid 0.80). -/
theorem C3_witness :
    (sweepStep {} (fun _ => (some (8/10), some (82/100))) 2 (initPaper {}).toLedger
      { order_id := 0, asset_id := 1, side := .buy, price := 8/10, size := 50,
        post_only := true, status := .opn, created_ts := 0 }).1.cash = 460 := by
  rw [C3_buy_fill_effects.1 {} (fun _ => (some (8/10), some (82/100))) 2
    (initPaper {}).toLedger
    { order_id := 0, asset_id := 1, side := .buy, price := 8/10, size := 50,
      post_only := true, status := .opn, created_ts := 0 }
    (8/10) (82/100) rfl (by norm_num) rfl rfl (by norm_num)
    (by norm_num [initPaper])]
  norm_num [initPaper]

/-! ## Claim C4 -/

/-- C4 (corrected): in a fill sweep, an open sell order older than the
fill delay, for an asset with positive held inventory, with
`bid ≥ price - 1e-9` (and both book sides present), fills — for
`min(held, size)` shares without erroring, with realized-pnl delta
`filled_qty * (price - avg_cost)`, cash credited, inventory decremented
(dust `≤ 1e-12` snapped to zero together with the cost basis), and the
order marked filled — provided, additionally to the claim's conditions,
that the order size is positive (a size-0 sell meets every stated
condition yet stays `open`; see the counterexample); and the win (loss)
counter increments iff the delta exceeds `1e-9` (is below `-1e-9`), not
exactly iff it is positive (negative). -/
theorem C4_sell_fill_effects (cfg : PaperExecCfg) (book : PriceCache) (now : ℚ)
    (led : Ledger) (o : Order) (bid ask : ℚ)
    (hopen : o.status = .opn)
    (hage : ¬ now - o.created_ts < cfg.fill_delay_sec)
    (hbook : book o.asset_id = (some bid, some ask))
    (hside : o.side = .sell)
    (hbid : o.price - 1/1000000000 ≤ bid)
    (hheld : 0 < getA led.inv o.asset_id)
    (hsz : 0 < o.size) :
    sweepStep cfg book now led o =
      ({ led with
          cash := led.cash + o.price * min (getA led.inv o.asset_id) o.size,
          inv := updA led.inv o.asset_id
            (if getA led.inv o.asset_id - min (getA led.inv o.asset_id) o.size
                ≤ 1/1000000000000 then 0
              else getA led.inv o.asset_id - min (getA led.inv o.asset_id) o.size),
          avg_cost := if getA led.inv o.asset_id
                - min (getA led.inv o.asset_id) o.size ≤ 1/1000000000000 then
              updA led.avg_cost o.asset_id 0
            else led.avg_cost,
          realized_pnl := led.realized_pnl
            + min (getA led.inv o.asset_id) o.size
              * (o.price - getA led.avg_cost o.asset_id),
          wins := if 1/1000000000 < min (getA led.inv o.asset_id) o.size
                * (o.price - getA led.avg_cost o.asset_id) then
              led.wins + 1
            else led.wins,
          losses := if min (getA led.inv o.asset_id) o.size
                * (o.price - getA led.avg_cost o.asset_id) < -(1/1000000000) then
              led.losses + 1
            else led.losses },
        markFilled o now o.price) :=
  sweepStep_sell_fill cfg book now led o bid ask hopen hage hbook hside hbid
    (lt_min hheld hsz)

/-- C4 counterexample: a size-0 sell order for an asset with positive
inventory, aged past the delay with the bid at its price, satisfies
every condition the claim states, yet remains `open` instead of
filling. -/
theorem C4_cex :
    ((runOps {} (initPaper {})
        [.setBook 1 (some (8/10)) (some (82/100)),
         .placeBuy 0 1 (8/10) 5, .balance 2,
         .placeSellPO 2 1 (8/10) 0, .balance 4]).orders.find?
      (fun o => o.order_id = 1)).map (fun o => o.status) = some .opn ∧
    getA (runOps {} (initPaper {})
        [.setBook 1 (some (8/10)) (some (82/100)),
         .placeBuy 0 1 (8/10) 5, .balance 2,
         .placeSellPO 2 1 (8/10) 0, .balance 4]).inv 1 = 5 ∧
    (8/10 : ℚ) - 1/1000000000 ≤ 8/10 := by
  refine ⟨?_, ?_, ?_⟩ <;>
    norm_num [runOps, applyOp, initPaper, maybeFillAll, sweepOrders, sweepStep,
      place, updBook, markFilled, getA, updA, List.find?, OStatus_filled_eq_opn,
      OStatus_canceled_eq_opn]

/-- C4 witness: the sell-fill effect instantiated: 5 shares held at avg
cost 0.5, sell 3 at 0.80 with the bid at 0.80; cash is credited by
`0.8 * 3`. -/
theorem C4_witness :
    (sweepStep {} (fun _ => (some (8/10), some (82/100))) 2
      { cash := 100, inv := [(1, 5)], avg_cost := [(1, 1/2)],
        realized_pnl := 0, wins := 0, losses := 0 }
      { order_id := 7, asset_id := 1, side := .sell, price := 8/10, size := 3,
        post_only := false, status := .opn, created_ts := 0 }).1.cash = 512/5 := by
  rw [C4_sell_fill_effects {} (fun _ => (some (8/10), some (82/100))) 2
    { cash := 100, inv := [(1, 5)], avg_cost := [(1, 1/2)],
      realized_pnl := 0, wins := 0, losses := 0 }
    { order_id := 7, asset_id := 1, side := .sell, price := 8/10, size := 3,
      post_only := false, status := .opn, created_ts := 0 }
    (8/10) (82/100) rfl (by norm_num) rfl rfl (by norm_num)
    (by norm_num [getA]) (by norm_num)]
  norm_num [getA]

/-! ## Claim C5 -/

/-- C5 (corrected): a buy of `q` shares at price `p` that fills, followed
by a sell of `q` shares at the same price that fills, yields a
realized-pnl delta of exactly `0`, restores the inventory to its
pre-buy level, leaves cash unchanged, and increments neither the win nor
the loss counter — provided the pre-buy inventory of the asset is zero
(here: starting from the initial ledger).  With pre-existing inventory
at a different average cost the delta is `q * (p - avg)` and a counter
does move; see the counterexample. -/
theorem C5_round_trip (c0 p q : ℚ) (a : AssetId)
    (hq : 0 < q) (hc : p * q ≤ c0 + 1/1000000000) :
    (runOps { start_cash_usd := c0 } (initPaper { start_cash_usd := c0 })
      [.setBook a (some p) (some p),
       .placeBuy 0 a p q, .balance 2,
       .placeSellPO 2 a p q, .balance 4]).realized_pnl = 0 ∧
    getA (runOps { start_cash_usd := c0 } (initPaper { start_cash_usd := c0 })
      [.setBook a (some p) (some p),
       .placeBuy 0 a p q, .balance 2,
       .placeSellPO 2 a p q, .balance 4]).inv a = 0 ∧
    (runOps { start_cash_usd := c0 } (initPaper { start_cash_usd := c0 })
      [.setBook a (some p) (some p),
       .placeBuy 0 a p q, .balance 2,
       .placeSellPO 2 a p q, .balance 4]).wins = 0 ∧
    (runOps { start_cash_usd := c0 } (initPaper { start_cash_usd := c0 })
      [.setBook a (some p) (some p),
       .placeBuy 0 a p q, .balance 2,
       .placeSellPO 2 a p q, .balance 4]).losses = 0 ∧
    (runOps { start_cash_usd := c0 } (initPaper { start_cash_usd := c0 })
      [.setBook a (some p) (some p),
       .placeBuy 0 a p q, .balance 2,
       .placeSellPO 2 a p q, .balance 4]).cash = c0 := by
  have hqp : q * p / q = p := mul_div_cancel_left₀ p hq.ne'
  refine ⟨?_, ?_, ?_, ?_, ?_⟩ <;>
    norm_num [runOps, applyOp, initPaper, maybeFillAll, sweepOrders, sweepStep,
      place, updBook, markFilled, getA, updA, List.find?, OStatus_filled_eq_opn,
      OStatus_canceled_eq_opn, hc, hq, hqp, min_self]

/-- C5 counterexample: with one pre-existing share bought at `0.5`, a
buy of 1 share at `0.9` followed by a sell of 1 share at the same `0.9`
(both filling) realizes `+0.2` (the sell consumes the blended average
cost `0.7`) and increments the win counter, refuting "delta 0, neither
counter" for arbitrary pre-buy states; inventory does return to the
pre-buy level 1. -/
theorem C5_cex :
    (runOps {} (initPaper {})
      [.setBook 1 (some (1/2)) (some (1/2)), .placeBuy 0 1 (1/2) 1, .balance 2,
       .setBook 1 (some (9/10)) (some (9/10)), .placeBuy 2 1 (9/10) 1,
       .balance 4]).realized_pnl = 0 ∧
    (runOps {} (initPaper {})
      [.setBook 1 (some (1/2)) (some (1/2)), .placeBuy 0 1 (1/2) 1, .balance 2,
       .setBook 1 (some (9/10)) (some (9/10)), .placeBuy 2 1 (9/10) 1,
       .balance 4]).wins = 0 ∧
    (runOps {} (initPaper {})
      [.setBook 1 (some (1/2)) (some (1/2)), .placeBuy 0 1 (1/2) 1, .balance 2,
       .setBook 1 (some (9/10)) (some (9/10)), .placeBuy 2 1 (9/10) 1,
       .balance 4, .placeSellPO 4 1 (9/10) 1, .balance 6]).realized_pnl = 1/5 ∧
    (runOps {} (initPaper {})
      [.setBook 1 (some (1/2)) (some (1/2)), .placeBuy 0 1 (1/2) 1, .balance 2,
       .setBook 1 (some (9/10)) (some (9/10)), .placeBuy 2 1 (9/10) 1,
       .balance 4, .placeSellPO 4 1 (9/10) 1, .balance 6]).wins = 1 ∧
    getA (runOps {} (initPaper {})
      [.setBook 1 (some (1/2)) (some (1/2)), .placeBuy 0 1 (1/2) 1, .balance 2,
       .setBook 1 (some (9/10)) (some (9/10)), .placeBuy 2 1 (9/10) 1,
       .balance 4, .placeSellPO 4 1 (9/10) 1, .balance 6]).inv 1 = 1 := by
  refine ⟨?_, ?_, ?_, ?_, ?_⟩ <;>
    norm_num [runOps, applyOp, initPaper, maybeFillAll, sweepOrders, sweepStep,
      place, updBook, markFilled, getA, updA, List.find?, OStatus_filled_eq_opn,
      OStatus_canceled_eq_opn]

/-- C5 witness: the round trip instantiated at cash 500, 50 shares at
price 0.80. -/
theorem C5_witness :
    (runOps { start_cash_usd := 500 } (initPaper { start_cash_usd := 500 })
      [.setBook 1 (some (8/10)) (some (8/10)),
       .placeBuy 0 1 (8/10) 50, .balance 2,
       .placeSellPO 2 1 (8/10) 50, .balance 4]).realized_pnl = 0 ∧
    getA (runOps { start_cash_usd := 500 } (initPaper { start_cash_usd := 500 })
      [.setBook 1 (some (8/10)) (some (8/10)),
       .placeBuy 0 1 (8/10) 50, .balance 2,
       .placeSellPO 2 1 (8/10) 50, .balance 4]).inv 1 = 0 ∧
    (runOps { start_cash_usd := 500 } (initPaper { start_cash_usd := 500 })
      [.setBook 1 (some (8/10)) (some (8/10)),
       .placeBuy 0 1 (8/10) 50, .balance 2,
       .placeSellPO 2 1 (8/10) 50, .balance 4]).wins = 0 ∧
    (runOps { start_cash_usd := 500 } (initPaper { start_cash_usd := 500 })
      [.setBook 1 (some (8/10)) (some (8/10)),
       .placeBuy 0 1 (8/10) 50, .balance 2,
       .placeSellPO 2 1 (8/10) 50, .balance 4]).losses = 0 ∧
    (runOps { start_cash_usd := 500 } (initPaper { start_cash_usd := 500 })
      [.setBook 1 (some (8/10)) (some (8/10)),
       .placeBuy 0 1 (8/10) 50, .balance 2,
       .placeSellPO 2 1 (8/10) 50, .balance 4]).cash = 500 :=
  C5_round_trip 500 (8/10) 50 1 (by norm_num) (by norm_num)

/-! ## Lemmas about the engine step -/

theorem getOrder_fst (cfg : PaperExecCfg) (now : ℚ) (s : PaperState) (oid : ℕ) :
    (getOrder cfg now s oid).1 = maybeFillAll cfg now s := rfl

theorem pollFill_zero (cfg : PaperExecCfg) (oid : ℕ) (s : PaperState) (t : ℚ) :
    pollFill cfg oid s t 0 = (s, t, false) := rfl

theorem pollFill_succ (cfg : PaperExecCfg) (oid : ℕ) (s : PaperState) (t : ℚ) (n : ℕ) :
    pollFill cfg oid s t (n + 1) =
      if ((getOrder cfg t s oid).2.map (fun o => o.status)) = some .filled then
        ((getOrder cfg t s oid).1, t, true)
      else pollFill cfg oid (getOrder cfg t s oid).1 (t + 1/5) n := rfl

/-- Membership of an order satisfying `Φ` survives the bounded fill-wait
loop, provided `Φ` survives `markFilled` on open orders. -/
theorem pollFill_keep (cfg : PaperExecCfg) (oid : ℕ) (Φ : Order → Prop)
    (hΦ : ∀ (o : Order) (t : ℚ), Φ o → o.status = .opn → Φ (markFilled o t o.price)) :
    ∀ (fuel : ℕ) (s : PaperState) (t : ℚ),
    (∃ o ∈ s.orders, Φ o) →
    ∃ o' ∈ (pollFill cfg oid s t fuel).1.orders, Φ o' := by
  intro fuel
  induction fuel with
  | zero => intro s t h; exact h
  | succ n ih =>
    intro s t h
    rw [pollFill_succ]
    by_cases hc : ((getOrder cfg t s oid).2.map (fun o => o.status)) = some OStatus.filled
    · rw [if_pos hc]
      exact maybeFillAll_keep cfg t s Φ (fun o => hΦ o t) h
    · rw [if_neg hc]
      exact ih (getOrder cfg t s oid).1 (t + 1/5)
        (maybeFillAll_keep cfg t s Φ (fun o => hΦ o t) h)

theorem place_keep (s : PaperState) (now : ℚ) (a : AssetId) (side : Side)
    (p z : ℚ) (po : Bool) (Φ : Order → Prop) (h : ∃ o ∈ s.orders, Φ o) :
    ∃ o' ∈ (place s now a side p z po).1.orders, Φ o' := by
  obtain ⟨o, ho, hΦo⟩ := h
  exact ⟨o, List.mem_append_left _ ho, hΦo⟩

theorem place_new_mem (s : PaperState) (now : ℚ) (a : AssetId) (side : Side)
    (p z : ℚ) (po : Bool) :
    ({ order_id := s.next_id, asset_id := a, side := side, price := p, size := z,
       post_only := po, status := .opn, created_ts := now } : Order)
      ∈ (place s now a side p z po).1.orders := by
  simp [place]

theorem cancelOrder_toLedger (s : PaperState) (oid : ℕ) :
    (cancelOrder s oid).toLedger = s.toLedger := rfl

theorem cancelOrder_next_id (s : PaperState) (oid : ℕ) :
    (cancelOrder s oid).next_id = s.next_id := rfl

theorem cancelOrder_ids (s : PaperState) (oid : ℕ) :
    ((cancelOrder s oid).orders).map (fun o => o.order_id)
      = s.orders.map (fun o => o.order_id) := by
  show (s.orders.map _).map _ = _
  rw [List.map_map]
  apply List.map_congr_left
  intro o _
  simp only [Function.comp]
  split <;> rfl

/-- Cancelling an open order marks exactly it canceled. -/
theorem cancelOrder_mem (s : PaperState) (oid : ℕ) (o : Order)
    (ho : o ∈ s.orders) (hid : o.order_id = oid) (hop : o.status = .opn) :
    ∃ o' ∈ (cancelOrder s oid).orders, o'.order_id = oid ∧ o'.status = .canceled := by
  refine ⟨{ o with status := .canceled }, ?_, hid, rfl⟩
  exact List.mem_map.mpr ⟨o, ho, by rw [if_pos ⟨hid, hop⟩]⟩

theorem maybeFillAll_next_id (cfg : PaperExecCfg) (now : ℚ) (s : PaperState) :
    (maybeFillAll cfg now s).next_id = s.next_id := rfl

/-- The scalp-side effect of a triggered stop-loss: close the position
and record a loss on the sizer; the paper side is `slExitPaper`. -/
theorem slCheck_triggered (cfg : PaperExecCfg) (now : ℚ) (sc : ScalpState)
    (pos : OpenPosition) (paper : PaperState) (bid sl : ℚ)
    (hbid : (sc.book pos.asset_id).1 = some bid)
    (hsl : pos.sl_price = some sl)
    (hbsl : bid ≤ sl) :
    slCheck cfg now sc pos paper =
      ⟨{ sc with sizer := sc.sizer.on_trade_closed false, pos := none },
        slExitPaper cfg now sc pos paper bid⟩ := by
  unfold slCheck
  simp only [hbid, hsl]
  rw [if_pos hbsl]

/-- Membership of an order satisfying `Φ` survives the whole stop-loss
exit tail, starting from the state right after the exit sell was
placed. -/
theorem slExitPaper_keep (cfg : PaperExecCfg) (now : ℚ) (sc : ScalpState)
    (pos : OpenPosition) (paper : PaperState) (bid : ℚ) (Φ : Order → Prop)
    (hΦ : ∀ (o : Order) (t : ℚ), Φ o → o.status = .opn → Φ (markFilled o t o.price))
    (h : ∃ o ∈ (place (slCancelTp pos paper) now pos.asset_id .sell bid
        pos.qty false).1.orders, Φ o) :
    ∃ o' ∈ (slExitPaper cfg now sc pos paper bid).orders, Φ o' := by
  unfold slExitPaper
  have h1 := pollFill_keep cfg
    (place (slCancelTp pos paper) now pos.asset_id .sell bid pos.qty false).2 Φ hΦ 10
    (place (slCancelTp pos paper) now pos.asset_id .sell bid pos.qty false).1 now h
  by_cases hf : (pollFill cfg
      (place (slCancelTp pos paper) now pos.asset_id .sell bid pos.qty false).2
      (place (slCancelTp pos paper) now pos.asset_id .sell bid pos.qty false).1
      now 10).2.2 = true
  · rw [if_pos hf]
    exact h1
  · rw [if_neg hf]
    cases hb2 : (sc.book pos.asset_id).1 with
    | none => exact h1
    | some bid2 =>
      exact pollFill_keep cfg _ Φ hΦ 10 _ _ (place_keep _ _ _ _ _ _ _ _ h1)

/-! ## Claim C9 -/

/-- C9 (confirmed): with book data present, an entry order aged beyond
`entry_ttl_seconds` while still unfilled is canceled by `step`, the
engine returns to NoPosition, no TP/SL (or any other) order is placed,
and the win/loss counters, cash, realized pnl, and the sizer's
`bet_frac` are all unchanged. -/
theorem C9_entry_ttl_cancel (cfg : PaperExecCfg) (now : ℚ) (s : SysState)
    (pos : OpenPosition) (eo : Order) (yb ya nb na : ℚ)
    (hby : s.scalp.book s.scalp.market.yes_asset = (some yb, some ya))
    (hbn : s.scalp.book s.scalp.market.no_asset = (some nb, some na))
    (hpos : s.scalp.pos = some pos)
    (hfp : pos.fill_price = none)
    (httl : s.scalp.rules.entry_ttl_seconds < now - pos.entry_ts)
    (heo : eo ∈ s.paper.orders)
    (heid : eo.order_id = pos.entry_order_id)
    (heop : eo.status = .opn) :
    (step cfg now s).scalp.pos = none ∧
    (step cfg now s).scalp.sizer = s.scalp.sizer ∧
    (step cfg now s).paper.wins = s.paper.wins ∧
    (step cfg now s).paper.losses = s.paper.losses ∧
    (step cfg now s).paper.cash = s.paper.cash ∧
    (step cfg now s).paper.realized_pnl = s.paper.realized_pnl ∧
    ((step cfg now s).paper.orders).map (fun o => o.order_id)
      = s.paper.orders.map (fun o => o.order_id) ∧
    ∃ o' ∈ (step cfg now s).paper.orders,
      o'.order_id = pos.entry_order_id ∧ o'.status = .canceled := by
  have hstep : step cfg now s =
      ⟨{ s.scalp with pos := none }, cancelOrder s.paper pos.entry_order_id⟩ := by
    simp only [step, hby, hbn, hpos, hfp]
    rw [if_pos httl]
  rw [hstep]
  exact ⟨rfl, rfl, rfl, rfl, rfl, rfl, cancelOrder_ids s.paper pos.entry_order_id,
    cancelOrder_mem s.paper pos.entry_order_id eo heo heid heop⟩

/-- C9 witness: the concrete aged-entry scenario (TTL 20, stepped at
`now = 25`). -/
theorem C9_witness :
    (step {} 25 sysW9).scalp.pos = none ∧
    (step {} 25 sysW9).scalp.sizer = sysW9.scalp.sizer ∧
    (step {} 25 sysW9).paper.wins = sysW9.paper.wins ∧
    (step {} 25 sysW9).paper.losses = sysW9.paper.losses ∧
    (step {} 25 sysW9).paper.cash = sysW9.paper.cash ∧
    (step {} 25 sysW9).paper.realized_pnl = sysW9.paper.realized_pnl ∧
    ((step {} 25 sysW9).paper.orders).map (fun o => o.order_id)
      = sysW9.paper.orders.map (fun o => o.order_id) ∧
    ∃ o' ∈ (step {} 25 sysW9).paper.orders,
      o'.order_id = posW9.entry_order_id ∧ o'.status = .canceled :=
  C9_entry_ttl_cancel {} 25 sysW9 posW9 entryOrderW
    (69/100) (71/100) (31/100) (33/100)
    (by norm_num [sysW9, scalpW9, scalpW8, bookW])
    (by norm_num [sysW9, scalpW9, scalpW8, bookW])
    (by norm_num [sysW9, scalpW9, scalpW8])
    rfl
    (by norm_num [sysW9, scalpW9, scalpW8, posW9])
    (by norm_num [sysW9, paperW9])
    rfl rfl

/-! ## Claim C10 -/

/-- C10 (confirmed): in the Filled state, `step` polls the take-profit
order before evaluating the stop-loss: if the TP is already filled —
even when the current bid is also at or below `sl_price` — the sizer is
told `won = true`, the position is cleared, and no exit sell (indeed no
order at all) is placed; the paper state is exactly the lazy fill sweep
of the TP status poll. -/
theorem C10_tp_before_sl (cfg : PaperExecCfg) (now : ℚ) (s : SysState)
    (pos : OpenPosition) (f : ℚ) (tpid : ℕ) (sl bid : ℚ) (yb ya nb na : ℚ)
    (hby : s.scalp.book s.scalp.market.yes_asset = (some yb, some ya))
    (hbn : s.scalp.book s.scalp.market.no_asset = (some nb, some na))
    (hpos : s.scalp.pos = some pos)
    (hfp : pos.fill_price = some f)
    (htp : pos.tp_order_id = some tpid)
    (_hsl : pos.sl_price = some sl)
    (_hbid : (s.scalp.book pos.asset_id).1 = some bid)
    (_hbsl : bid ≤ sl)
    (hfilled : ((getOrder cfg now s.paper tpid).2.map (fun o => o.status))
      = some .filled) :
    (step cfg now s).scalp.pos = none ∧
    (step cfg now s).scalp.sizer = s.scalp.sizer.on_trade_closed true ∧
    (step cfg now s).paper = (getOrder cfg now s.paper tpid).1 ∧
    ((step cfg now s).paper.orders).map (fun o => o.order_id)
      = s.paper.orders.map (fun o => o.order_id) := by
  have hstep : step cfg now s =
      ⟨{ s.scalp with sizer := s.scalp.sizer.on_trade_closed true, pos := none },
        (getOrder cfg now s.paper tpid).1⟩ := by
    simp only [step, hby, hbn, hpos, hfp, htp]
    rw [if_pos hfilled]
  rw [hstep]
  exact ⟨rfl, rfl, rfl, maybeFillAll_ids cfg now s.paper⟩

/-- C10 witness: the concrete scenario with the TP already filled and
the bid `0.69` below `sl = 0.70`. -/
theorem C10_witness :
    (step {} 3 sysW10).scalp.pos = none ∧
    (step {} 3 sysW10).scalp.sizer = sysW10.scalp.sizer.on_trade_closed true ∧
    (step {} 3 sysW10).paper = (getOrder {} 3 sysW10.paper 5).1 ∧
    ((step {} 3 sysW10).paper.orders).map (fun o => o.order_id)
      = sysW10.paper.orders.map (fun o => o.order_id) :=
  C10_tp_before_sl {} 3 sysW10 posW8 (8/10) 5 (7/10) (69/100)
    (69/100) (71/100) (31/100) (33/100)
    (by norm_num [sysW10, scalpW8, bookW])
    (by norm_num [sysW10, scalpW8, bookW])
    rfl rfl rfl rfl
    (by norm_num [sysW10, scalpW8, posW8, bookW])
    (by norm_num)
    (by norm_num [sysW10, getOrder, maybeFillAll, sweepOrders, sweepStep,
      paperW10, paperW8, tpOrderW10, tpOrderW, bookW, List.find?,
      OStatus_filled_eq_opn, OStatus_canceled_eq_opn])

/-! ## Claim C8 -/

/-- C8 (confirmed): in the Filled state with the TP still unfilled (its
status poll reports `open`) and the bid at or below `sl_price`, `step`
cancels the TP order, places a marketable limit sell at the current bid
for the position quantity, runs its bounded polls (re-pricing once if
needed), reports `won = false` to the sizer, and clears the position.
Concretely (witness): `tp = 0.90`, `sl = 0.70`, bid `0.69` triggers TP
cancellation, an exit sell at `0.69`, and the loss step on the sizer. -/
theorem C8_stop_loss_exit (cfg : PaperExecCfg) (now : ℚ) (s : SysState)
    (pos : OpenPosition) (f : ℚ) (tpid : ℕ) (sl bid : ℚ) (yb ya nb na : ℚ)
    (hby : s.scalp.book s.scalp.market.yes_asset = (some yb, some ya))
    (hbn : s.scalp.book s.scalp.market.no_asset = (some nb, some na))
    (hpos : s.scalp.pos = some pos)
    (hfp : pos.fill_price = some f)
    (htp : pos.tp_order_id = some tpid)
    (hsl : pos.sl_price = some sl)
    (hnotf : ((getOrder cfg now s.paper tpid).2.map (fun o => o.status))
      = some .opn)
    (hbid : (s.scalp.book pos.asset_id).1 = some bid)
    (hbsl : bid ≤ sl) :
    (step cfg now s).scalp.pos = none ∧
    (step cfg now s).scalp.sizer = s.scalp.sizer.on_trade_closed false ∧
    (∃ o' ∈ (step cfg now s).paper.orders,
      o'.order_id = tpid ∧ o'.status = .canceled) ∧
    ∃ o' ∈ (step cfg now s).paper.orders,
      o'.order_id = s.paper.next_id ∧ o'.asset_id = pos.asset_id ∧
      o'.side = .sell ∧ o'.price = bid ∧ o'.size = pos.qty ∧
      o'.post_only = false := by
  have hne : ¬ ((getOrder cfg now s.paper tpid).2.map (fun o => o.status))
      = some OStatus.filled := by
    rw [hnotf]
    simp
  have hstep : step cfg now s =
      slCheck cfg now s.scalp pos (getOrder cfg now s.paper tpid).1 := by
    simp only [step, hby, hbn, hpos, hfp, htp]
    rw [if_neg hne]
  rw [hstep, slCheck_triggered cfg now s.scalp pos _ bid sl hbid hsl hbsl]
  refine ⟨rfl, rfl, ?_, ?_⟩
  · obtain ⟨otp, hfind, hst⟩ := Option.map_eq_some'.mp hnotf
    have hmem : otp ∈ (getOrder cfg now s.paper tpid).1.orders :=
      List.mem_of_find?_eq_some hfind
    have hid : otp.order_id = tpid := by
      have := List.find?_some hfind
      simpa using this
    have h1 : ∃ o' ∈ (slCancelTp pos (getOrder cfg now s.paper tpid).1).orders,
        o'.order_id = tpid ∧ o'.status = .canceled := by
      unfold slCancelTp
      rw [htp]
      exact cancelOrder_mem _ tpid otp hmem hid hst
    refine slExitPaper_keep cfg now s.scalp pos _ bid _ ?_
      (place_keep _ now pos.asset_id .sell bid pos.qty false _ h1)
    intro o t ho hopn
    rw [ho.2] at hopn
    simp at hopn
  · have hnid : (slCancelTp pos (getOrder cfg now s.paper tpid).1).next_id
        = s.paper.next_id := by
      unfold slCancelTp
      rw [htp, cancelOrder_next_id, getOrder_fst, maybeFillAll_next_id]
    refine slExitPaper_keep cfg now s.scalp pos _ bid _ ?_
      ⟨_, place_new_mem (slCancelTp pos (getOrder cfg now s.paper tpid).1)
          now pos.asset_id .sell bid pos.qty false,
        hnid, rfl, rfl, rfl, rfl, rfl⟩
    intro o t ho _
    exact ⟨ho.1, ho.2.1, ho.2.2.1, ho.2.2.2.1, ho.2.2.2.2.1, ho.2.2.2.2.2⟩

/-- C8 witness: the concrete `tp = 0.90, sl = 0.70, bid = 0.69`
scenario. -/
theorem C8_witness :
    (step {} 3 sysW8).scalp.pos = none ∧
    (step {} 3 sysW8).scalp.sizer = sysW8.scalp.sizer.on_trade_closed false ∧
    (∃ o' ∈ (step {} 3 sysW8).paper.orders,
      o'.order_id = 5 ∧ o'.status = .canceled) ∧
    ∃ o' ∈ (step {} 3 sysW8).paper.orders,
      o'.order_id = sysW8.paper.next_id ∧ o'.asset_id = posW8.asset_id ∧
      o'.side = .sell ∧ o'.price = 69/100 ∧ o'.size = posW8.qty ∧
      o'.post_only = false :=
  C8_stop_loss_exit {} 3 sysW8 posW8 (8/10) 5 (7/10) (69/100)
    (69/100) (71/100) (31/100) (33/100)
    (by norm_num [sysW8, scalpW8, bookW])
    (by norm_num [sysW8, scalpW8, bookW])
    rfl rfl rfl rfl
    (by norm_num [sysW8, getOrder, maybeFillAll, sweepOrders, sweepStep,
      paperW8, tpOrderW, bookW, getA, List.find?,
      OStatus_filled_eq_opn, OStatus_canceled_eq_opn])
    (by norm_num [sysW8, scalpW8, posW8, bookW])
    (by norm_num)

end PolyScalp
